import Mathlib

set_option maxHeartbeats 1000000
set_option maxRecDepth 4000

/-!
Verification development for the n8n-nodes-upstage repository: a shallow
embedding of the per-endpoint adapter nodes (Document OCR, Document Parsing,
Information Extraction, Document Classification), their shared multipart
form-data builder, and the heuristic JSON-repair routine, together with
theorems settling the specification claims.

JavaScript values produced by JSON.parse are modeled by the inductive type
Json below; JS numbers are modeled as rationals (their exact decimal value),
which is faithful for every behavior the claims exercise (truthiness and
structural comparisons).
-/

namespace Upstage

/-- Model of a parsed JSON value (the result of a successful JSON.parse). -/
inductive Json where
  | null : Json
  | bool : Bool → Json
  | num : Rat → Json
  | str : String → Json
  | arr : List Json → Json
  | obj : List (String × Json) → Json
deriving Repr

mutual

/-- Structural equality test for Json values. -/
def Json.beq : Json → Json → Bool
  | .null, .null => true
  | .bool a, .bool b => a == b
  | .num a, .num b => a == b
  | .str a, .str b => a == b
  | .arr a, .arr b => Json.beqList a b
  | .obj a, .obj b => Json.beqObj a b
  | _, _ => false

/-- Elementwise equality test for lists of Json values. -/
def Json.beqList : List Json → List Json → Bool
  | [], [] => true
  | a :: as, b :: bs => Json.beq a b && Json.beqList as bs
  | _, _ => false

/-- Elementwise equality test for Json object field lists. -/
def Json.beqObj : List (String × Json) → List (String × Json) → Bool
  | [], [] => true
  | (ka, va) :: as, (kb, vb) :: bs => ka == kb && Json.beq va vb && Json.beqObj as bs
  | _, _ => false

end

mutual

theorem Json.beq_iff : ∀ a b : Json, Json.beq a b = true ↔ a = b
  | .null, b => by cases b <;> simp [Json.beq]
  | .bool x, b => by cases b <;> simp [Json.beq]
  | .num x, b => by cases b <;> simp [Json.beq]
  | .str x, b => by cases b <;> simp [Json.beq]
  | .arr xs, b => by
      cases b <;> simp [Json.beq]
      exact Json.beqList_iff xs _
  | .obj xs, b => by
      cases b <;> simp [Json.beq]
      exact Json.beqObj_iff xs _

theorem Json.beqList_iff : ∀ as bs : List Json, Json.beqList as bs = true ↔ as = bs
  | [], bs => by cases bs <;> simp [Json.beqList]
  | a :: as, bs => by
      cases bs with
      | nil => simp [Json.beqList]
      | cons b bs =>
        simp [Json.beqList, Bool.and_eq_true, Json.beq_iff a b, Json.beqList_iff as bs]

theorem Json.beqObj_iff : ∀ as bs : List (String × Json), Json.beqObj as bs = true ↔ as = bs
  | [], bs => by cases bs <;> simp [Json.beqObj]
  | (ka, va) :: as, bs => by
      cases bs with
      | nil => simp [Json.beqObj]
      | cons b bs =>
        obtain ⟨kb, vb⟩ := b
        simp [Json.beqObj, Bool.and_eq_true, Json.beq_iff va vb, Json.beqObj_iff as bs,
          Prod.ext_iff, and_assoc]

end

instance : DecidableEq Json := fun a b =>
  decidable_of_iff (Json.beq a b = true) (Json.beq_iff a b)

/-- JSON whitespace characters accepted by JSON.parse between tokens
(space, horizontal tab, line feed, carriage return). -/
def isJsonWs (c : Char) : Bool :=
  c = ' ' || c = '\t' || c = '\n' || c = '\r'

/-- Skip leading JSON whitespace. -/
def skipWs (l : List Char) : List Char := l.dropWhile isJsonWs

/-- Hex digit value, if the character is a hex digit. -/
def hexVal (c : Char) : Option Nat :=
  if '0' ≤ c ∧ c ≤ '9' then some (c.toNat - '0'.toNat)
  else if 'a' ≤ c ∧ c ≤ 'f' then some (c.toNat - 'a'.toNat + 10)
  else if 'A' ≤ c ∧ c ≤ 'F' then some (c.toNat - 'A'.toNat + 10)
  else none

/-- Parse the body of a JSON string literal (after the opening quote),
returning the decoded characters and the rest of the input after the
closing quote.  Escape sequences follow the JSON grammar; a \uXXXX high
surrogate followed by a \uXXXX low surrogate is combined into one code
point, and an unpaired surrogate (representable in a JS string but not in
a Lean string) is modeled as the replacement character. -/
def parseStringBody (fuel : Nat) (l : List Char) : Option (List Char × List Char) :=
  match fuel, l with
  | 0, _ => none
  | _, [] => none
  | fuel + 1, c :: rest =>
    if c = '"' then some ([], rest)
    else if c = '\\' then
      match rest with
      | [] => none
      | e :: rest2 =>
        let simpleEsc : Option Char :=
          if e = '"' then some '"'
          else if e = '\\' then some '\\'
          else if e = '/' then some '/'
          else if e = 'b' then some (Char.ofNat 8)
          else if e = 'f' then some (Char.ofNat 12)
          else if e = 'n' then some '\n'
          else if e = 'r' then some '\r'
          else if e = 't' then some '\t'
          else none
        match simpleEsc with
        | some d =>
          match parseStringBody fuel rest2 with
          | some (cs, rem) => some (d :: cs, rem)
          | none => none
        | none =>
          if e = 'u' then
            match rest2 with
            | h1 :: h2 :: h3 :: h4 :: rest3 =>
              match hexVal h1, hexVal h2, hexVal h3, hexVal h4 with
              | some a, some b, some c2, some d =>
                let n := ((a * 16 + b) * 16 + c2) * 16 + d
                if 0xD800 ≤ n ∧ n ≤ 0xDBFF then
                  -- possible surrogate pair
                  match rest3 with
                  | '\\' :: 'u' :: g1 :: g2 :: g3 :: g4 :: rest4 =>
                    match hexVal g1, hexVal g2, hexVal g3, hexVal g4 with
                    | some a2, some b2, some c3, some d2 =>
                      let m := ((a2 * 16 + b2) * 16 + c3) * 16 + d2
                      if 0xDC00 ≤ m ∧ m ≤ 0xDFFF then
                        let cp := 0x10000 + (n - 0xD800) * 0x400 + (m - 0xDC00)
                        match parseStringBody fuel rest4 with
                        | some (cs, rem) => some (Char.ofNat cp :: cs, rem)
                        | none => none
                      else
                        match parseStringBody fuel rest4 with
                        | some (cs, rem) =>
                            some (Char.ofNat 0xFFFD :: Char.ofNat m :: cs, rem)
                        | none => none
                    | _, _, _, _ => none
                  | _ =>
                    match parseStringBody fuel rest3 with
                    | some (cs, rem) => some (Char.ofNat 0xFFFD :: cs, rem)
                    | none => none
                else if 0xDC00 ≤ n ∧ n ≤ 0xDFFF then
                  match parseStringBody fuel rest3 with
                  | some (cs, rem) => some (Char.ofNat 0xFFFD :: cs, rem)
                  | none => none
                else
                  match parseStringBody fuel rest3 with
                  | some (cs, rem) => some (Char.ofNat n :: cs, rem)
                  | none => none
              | _, _, _, _ => none
            | _ => none
          else none
    else if c.toNat < 0x20 then none
    else
      match parseStringBody fuel rest with
      | some (cs, rem) => some (c :: cs, rem)
      | none => none

/-- Parse an unsigned decimal digit run, returning its value, length and rest. -/
def parseDigits (fuel : Nat) (acc : Nat) (len : Nat) (l : List Char) :
    Nat × Nat × List Char :=
  match fuel, l with
  | 0, _ => (acc, len, l)
  | fuel + 1, c :: rest =>
    if '0' ≤ c ∧ c ≤ '9' then
      parseDigits fuel (acc * 10 + (c.toNat - '0'.toNat)) (len + 1) rest
    else (acc, len, l)
  | _, [] => (acc, len, l)

/-- Parse the optional exponent part of a JSON number and assemble the
rational value from the already-parsed sign, integer part and fraction. -/
def parseNumberExp (neg : Bool) (ip : Nat) (frac : Nat × Nat) (l : List Char) :
    Option (Rat × List Char) :=
  let mag : Rat := (ip : Rat) + (frac.1 : Rat) / ((10 : Rat) ^ frac.2)
  let signed : Rat := if neg then -mag else mag
  match l with
  | e :: r =>
    if e = 'e' ∨ e = 'E' then
      let (eneg, r1) := match r with
        | '-' :: r2 => (true, r2)
        | '+' :: r2 => (false, r2)
        | _ => (false, r)
      let (ev, elen, r2) := parseDigits (r1.length + 1) 0 0 r1
      if elen = 0 then none
      else
        let scaled := if eneg then signed / ((10 : Rat) ^ ev)
                      else signed * ((10 : Rat) ^ ev)
        some (scaled, r2)
    else some (signed, e :: r)
  | [] => some (signed, l)

/-- Parse a JSON number per the JSON grammar
(-? (0 | [1-9][0-9]*) (. [0-9]+)? ([eE][+-]?[0-9]+)?), returning its exact
rational value. -/
def parseNumber (l : List Char) : Option (Rat × List Char) :=
  let (neg, l1) := match l with
    | '-' :: r => (true, r)
    | _ => (false, l)
  match l1 with
  | c :: _ =>
    if '0' ≤ c ∧ c ≤ '9' then
      let (ip, iplen, l2) := parseDigits (l1.length + 1) 0 0 l1
      -- leading-zero rule: "0" alone, or first digit nonzero
      if c = '0' ∧ iplen ≠ 1 then none
      else
        let (frac, fracLen, l3) :=
          match l2 with
          | '.' :: r =>
            let (fv, fl, l3) := parseDigits (r.length + 1) 0 0 r
            ((fv, fl), fl, l3)
          | _ => ((0, 0), 0, l2)
        match l2 with
        | '.' :: _ =>
          -- at least one fraction digit required
          if fracLen = 0 then none
          else parseNumberExp neg ip frac l3
        | _ => parseNumberExp neg ip frac l3
    else none
  | [] => none

mutual

/-- Parse one JSON value (leading whitespace allowed), returning the value and
the unconsumed rest of the input. -/
def parseVal (fuel : Nat) (l : List Char) : Option (Json × List Char) :=
  match fuel with
  | 0 => none
  | fuel + 1 =>
    match skipWs l with
    | [] => none
    | c :: rest =>
      if c = '\x7b' then
        match skipWs rest with
        | '\x7d' :: rest2 => some (.obj [], rest2)
        | _ => parseMembers fuel rest []
      else if c = '[' then
        match skipWs rest with
        | ']' :: rest2 => some (.arr [], rest2)
        | _ => parseElems fuel rest []
      else if c = '"' then
        match parseStringBody (rest.length + 1) rest with
        | some (cs, rem) => some (.str (String.mk cs), rem)
        | none => none
      else if c = 't' then
        match rest with
        | 'r' :: 'u' :: 'e' :: rem => some (.bool true, rem)
        | _ => none
      else if c = 'f' then
        match rest with
        | 'a' :: 'l' :: 's' :: 'e' :: rem => some (.bool false, rem)
        | _ => none
      else if c = 'n' then
        match rest with
        | 'u' :: 'l' :: 'l' :: rem => some (.null, rem)
        | _ => none
      else
        match parseNumber (c :: rest) with
        | some (q, rem) => some (.num q, rem)
        | none => none

/-- Parse the members of a JSON object after its opening brace (first member
pending), accumulating parsed fields in order. -/
def parseMembers (fuel : Nat) (l : List Char) (acc : List (String × Json)) :
    Option (Json × List Char) :=
  match fuel with
  | 0 => none
  | fuel + 1 =>
    match skipWs l with
    | '"' :: rest =>
      match parseStringBody (rest.length + 1) rest with
      | some (cs, rem) =>
        match skipWs rem with
        | ':' :: rem2 =>
          match parseVal fuel rem2 with
          | some (v, rem3) =>
            let acc2 := acc ++ [(String.mk cs, v)]
            match skipWs rem3 with
            | ',' :: rem4 => parseMembers fuel rem4 acc2
            | '\x7d' :: rem4 => some (.obj acc2, rem4)
            | _ => none
          | none => none
        | _ => none
      | none => none
    | _ => none

/-- Parse the elements of a JSON array after its opening bracket (first
element pending), accumulating parsed elements in order. -/
def parseElems (fuel : Nat) (l : List Char) (acc : List Json) :
    Option (Json × List Char) :=
  match fuel with
  | 0 => none
  | fuel + 1 =>
    match parseVal fuel l with
    | some (v, rem) =>
      let acc2 := acc ++ [v]
      match skipWs rem with
      | ',' :: rem2 => parseElems fuel rem2 acc2
      | ']' :: rem2 => some (.arr acc2, rem2)
      | _ => none
    | none => none

end

/-- Model of JSON.parse: parse a complete JSON document (one value surrounded
by optional whitespace, consuming the whole input).  Returns an error message
on failure; the message text models the engine-specific SyntaxError message. -/
def jsonParseE (s : String) : Except String Json :=
  match parseVal (2 * s.length + 8) s.data with
  | some (v, rem) =>
    if skipWs rem = [] then .ok v
    else .error "Unexpected non-whitespace character after JSON data"
  | none => .error "Unexpected token or end of input in JSON"

/-- Model of JSON.parse success: the parsed value when the input is valid
JSON, none otherwise. -/
def jsonParse (s : String) : Option Json := (jsonParseE s).toOption

/-! ## Heuristic JSON repair
(InformationExtractionUpstage.validateAndFixJsonStructure and advancedJsonFix) -/

/-- Number of occurrences of a character in a string
(models (jsonString.match(regex) or empty).length for a single-character
global regex). -/
def countChar (c : Char) (s : String) : Nat := s.data.count c

/-- Length of the maximal trailing run of the character c. -/
def trailingRun (c : Char) (l : List Char) : Nat :=
  (l.reverse.takeWhile (· = c)).length

/-- Model of str.replace(slash c+ dollar slash, String(c).repeat(n)): if the
string ends with at least one c, the maximal trailing run of c is replaced by
n copies of c; otherwise the string is unchanged (the regex does not match). -/
def replaceTrailingRun (c : Char) (n : Nat) (s : String) : String :=
  let k := trailingRun c s.data
  if k = 0 then s
  else String.mk (s.data.take (s.data.length - k) ++ List.replicate n c)

/-- The brace-imbalance step of validateAndFixJsonStructure: append missing
closing braces, or rewrite the trailing closing-brace run to openBraces
copies when there are more closers than openers (the source computes
closeBraces - extraBraces, which equals openBraces). -/
def braceStageFix (openBraces closeBraces : Nat) (s : String) : String :=
  if openBraces > closeBraces then
    s ++ String.mk (List.replicate (openBraces - closeBraces) '\x7d')
  else if closeBraces > openBraces then
    replaceTrailingRun '\x7d' openBraces s
  else s

/-- The bracket-imbalance step of validateAndFixJsonStructure, analogous to
the brace step. -/
def bracketStageFix (openBrackets closeBrackets : Nat) (s : String) : String :=
  if openBrackets > closeBrackets then
    s ++ String.mk (List.replicate (openBrackets - closeBrackets) ']')
  else if closeBrackets > openBrackets then
    replaceTrailingRun ']' openBrackets s
  else s

/-- The brace/bracket balancing step of validateAndFixJsonStructure
(its Step 2).  All four counts are taken from the original argument string,
exactly as in the source, while the bracket step runs on the output of the
brace step. -/
def basicBalanceFix (jsonString : String) : String :=
  bracketStageFix (countChar '[' jsonString) (countChar ']' jsonString)
    (braceStageFix (countChar '\x7b' jsonString) (countChar '\x7d' jsonString) jsonString)

/-- The literal character sequence matched by the head of the properties
regex in advancedJsonFix: a quoted properties key, a colon and an opening
brace. -/
def propPat : List Char := '"' :: ('p' :: 'r' :: 'o' :: 'p' :: 'e' :: 'r' :: 't' :: 'i' :: 'e' :: 's' :: '"' :: ':' :: '\x7b' :: [])

/-- Try to match the properties regex at the head of the input: the literal
propPat, then a greedy run of non-close-brace characters, then exactly four
closing braces.  Returns the captured run and the rest after the match. -/
def matchProp (l : List Char) : Option (List Char × List Char) :=
  if propPat.isPrefixOf l then
    let r := l.drop propPat.length
    let run := r.takeWhile (· ≠ '\x7d')
    let r2 := r.drop run.length
    if ('\x7d' :: '\x7d' :: '\x7d' :: '\x7d' :: []).isPrefixOf r2 then
      some (run, r2.drop 4)
    else none
  else none

/-- Global replace of the properties pattern: each match is rewritten to the
capture followed by three closing braces (dropping one brace), scanning left
to right and continuing after each match. -/
def propFix (fuel : Nat) (l : List Char) : List Char :=
  match fuel, l with
  | 0, l => l
  | _, [] => []
  | fuel + 1, c :: rest =>
    match matchProp (c :: rest) with
    | some (run, after) =>
      propPat ++ run ++ ('\x7d' :: '\x7d' :: '\x7d' :: []) ++ propFix fuel after
    | none => c :: propFix fuel rest

/-- Global replace of every maximal run of three or more closing braces by
exactly two closing braces (the callback in advancedJsonFix always returns
two braces because the pattern only matches runs of length at least three). -/
def collapseBraceRuns (fuel : Nat) (l : List Char) : List Char :=
  match fuel, l with
  | 0, l => l
  | _, [] => []
  | fuel + 1, c :: rest =>
    if ('\x7d' :: '\x7d' :: '\x7d' :: []).isPrefixOf (c :: rest) then
      let k := ((c :: rest).takeWhile (· = '\x7d')).length
      '\x7d' :: '\x7d' :: collapseBraceRuns fuel ((c :: rest).drop k)
    else c :: collapseBraceRuns fuel rest

/-- Model of InformationExtractionUpstage.advancedJsonFix: the narrow
properties-closure patch followed by collapsing runs of three or more
consecutive closing braces to two. -/
def advancedJsonFix (jsonString : String) : String :=
  let l1 := propFix (jsonString.length + 1) jsonString.data
  String.mk (collapseBraceRuns (l1.length + 1) l1)

/-- Model of InformationExtractionUpstage.validateAndFixJsonStructure: balance
brace/bracket counts, return the fixed string if it now parses, otherwise try
advancedJsonFix and return that result if it parses, otherwise return the
original argument unchanged.  (The logging in the source has no effect on the
result and is not modeled.) -/
def validateAndFixJsonStructure (jsonString : String) : String :=
  let fixedJson := basicBalanceFix jsonString
  match jsonParse fixedJson with
  | some _ => fixedJson
  | none =>
    let fixedJson2 := advancedJsonFix fixedJson
    match jsonParse fixedJson2 with
    | some _ => fixedJson2
    | none => jsonString

/-! ## Theorems about the JSON repair routine (claims C4, C5, C6) -/

theorem countChar_mk (c : Char) (l : List Char) :
    countChar c (String.mk l) = List.count c l := rfl

theorem braceStageFix_append (c db : Nat) (s : String) :
    (braceStageFix (c + db) c s).data = s.data ++ List.replicate db '\x7d' := by
  unfold braceStageFix
  rcases Nat.eq_zero_or_pos db with hdb | hdb
  · subst hdb
    rw [if_neg (by omega), if_neg (by omega)]
    simp
  · rw [if_pos (by omega)]
    have e : c + db - c = db := by omega
    rw [e, String.data_append]

theorem bracketStageFix_append (c dk : Nat) (s : String) :
    (bracketStageFix (c + dk) c s).data = s.data ++ List.replicate dk ']' := by
  unfold bracketStageFix
  rcases Nat.eq_zero_or_pos dk with hdk | hdk
  · subst hdk
    rw [if_neg (by omega), if_neg (by omega)]
    simp
  · rw [if_pos (by omega)]
    have e : c + dk - c = dk := by omega
    rw [e, String.data_append]

theorem basicBalanceFix_of_balanced (s : String)
    (hbrace : countChar '\x7b' s = countChar '\x7d' s)
    (hbrk : countChar '[' s = countChar ']' s) :
    basicBalanceFix s = s := by
  unfold basicBalanceFix braceStageFix bracketStageFix
  rw [hbrace, hbrk]
  rw [if_neg (by omega), if_neg (by omega), if_neg (by omega), if_neg (by omega)]

/-- Claim C4: for every input string that is valid JSON with balanced brace
and bracket character counts, validateAndFixJsonStructure returns that string
unchanged. -/
theorem validateAndFix_id_on_balanced_valid (s : String)
    (hval : (jsonParse s).isSome)
    (hbrace : countChar '\x7b' s = countChar '\x7d' s)
    (hbrk : countChar '[' s = countChar ']' s) :
    validateAndFixJsonStructure s = s := by
  obtain ⟨v, hv⟩ := Option.isSome_iff_exists.mp hval
  unfold validateAndFixJsonStructure
  rw [basicBalanceFix_of_balanced s hbrace hbrk]
  simp only [hv]

/-- Witness for C4 at a concrete balanced valid JSON document. -/
theorem validateAndFix_id_on_balanced_valid_witness :
    validateAndFixJsonStructure "\x7b\"a\":[1]\x7d" = "\x7b\"a\":[1]\x7d" :=
  validateAndFix_id_on_balanced_valid _ (by decide) (by decide) (by decide)

/-- Claim C5 counterexample: the document left-brace a colon [1] close-close
is valid JSON; deleting its two trailing closers (a bracket and then a brace,
so N = 2) leaves a string that the repair routine does not return to
parseable form, because the routine appends all missing braces before all
missing brackets. -/
theorem repair_truncated_json_counterexample :
    (jsonParse "\x7b\"a\":[1]\x7d").isSome = true ∧
    "\x7b\"a\":[1" ++ "]\x7d" = "\x7b\"a\":[1]\x7d" ∧
    jsonParse (validateAndFixJsonStructure "\x7b\"a\":[1") = none := by
  refine ⟨by decide, by decide, ?_⟩
  decide

/-- Claim C5 as amended: if a valid JSON document with balanced brace and
bracket character counts ends with a run of closing braces followed by a run
of closing brackets, and exactly that trailing run (N of them, N at least 1)
is deleted, then validateAndFixJsonStructure restores the original document
exactly, so the result parses successfully. -/
theorem repair_truncated_json_amended (l : List Char) (db dk : Nat)
    (_hN : 1 ≤ db + dk)
    (hval : (jsonParse (String.mk (l ++ (List.replicate db '\x7d' ++ List.replicate dk ']')))).isSome)
    (hbrace : countChar '\x7b' (String.mk (l ++ (List.replicate db '\x7d' ++ List.replicate dk ']')))
      = countChar '\x7d' (String.mk (l ++ (List.replicate db '\x7d' ++ List.replicate dk ']'))))
    (hbrk : countChar '[' (String.mk (l ++ (List.replicate db '\x7d' ++ List.replicate dk ']')))
      = countChar ']' (String.mk (l ++ (List.replicate db '\x7d' ++ List.replicate dk ']')))) :
    validateAndFixJsonStructure (String.mk l)
      = String.mk (l ++ (List.replicate db '\x7d' ++ List.replicate dk ']')) ∧
    (jsonParse (validateAndFixJsonStructure (String.mk l))).isSome := by
  have hrepNe : ∀ (c d : Char) (n : Nat), (c == d) = false →
      List.count d (List.replicate n c) = 0 := by
    intro c d n h
    rw [List.count_replicate, if_neg (by simp [h])]
  have hrepEq : ∀ (c : Char) (n : Nat), List.count c (List.replicate n c) = n := by
    intro c n
    rw [List.count_replicate, if_pos (by simp)]
  have hcb : List.count '\x7b' l = List.count '\x7d' l + db := by
    have h := hbrace
    simp only [countChar_mk, List.count_append] at h
    rw [hrepNe '\x7d' '\x7b' db (by decide), hrepNe ']' '\x7b' dk (by decide),
      hrepEq '\x7d' db, hrepNe ']' '\x7d' dk (by decide)] at h
    omega
  have hck : List.count '[' l = List.count ']' l + dk := by
    have h := hbrk
    simp only [countChar_mk, List.count_append] at h
    rw [hrepNe '\x7d' '[' db (by decide), hrepNe ']' '[' dk (by decide),
      hrepNe '\x7d' ']' db (by decide), hrepEq ']' dk] at h
    omega
  have hfix : basicBalanceFix (String.mk l)
      = String.mk (l ++ (List.replicate db '\x7d' ++ List.replicate dk ']')) := by
    unfold basicBalanceFix
    rw [countChar_mk, countChar_mk, countChar_mk, countChar_mk, hcb, hck]
    apply String.ext
    rw [bracketStageFix_append, braceStageFix_append]
    simp
  obtain ⟨v, hv⟩ := Option.isSome_iff_exists.mp hval
  constructor
  · unfold validateAndFixJsonStructure
    rw [hfix]
    simp only [hv]
  · unfold validateAndFixJsonStructure
    rw [hfix]
    simp only [hv]
    simp

/-- Witness for the amended C5 at a concrete truncated document: deleting the
two trailing closing braces of a nested object is repaired exactly. -/
theorem repair_truncated_json_amended_witness :
    validateAndFixJsonStructure (String.mk "\x7b\"a\":\x7b\"b\":1".data)
      = String.mk ("\x7b\"a\":\x7b\"b\":1".data ++ (List.replicate 2 '\x7d' ++ List.replicate 0 ']')) ∧
    (jsonParse (validateAndFixJsonStructure (String.mk "\x7b\"a\":\x7b\"b\":1".data))).isSome :=
  repair_truncated_json_amended "\x7b\"a\":\x7b\"b\":1".data 2 0 (by decide) (by decide)
    (by decide) (by decide)

/-- Claim C6: when neither repair stage produces parseable JSON, the routine
returns exactly its original argument (not an intermediate mutated form). -/
theorem validateAndFix_returns_original_on_failure (s : String)
    (h1 : jsonParse (basicBalanceFix s) = none)
    (h2 : jsonParse (advancedJsonFix (basicBalanceFix s)) = none) :
    validateAndFixJsonStructure s = s := by
  unfold validateAndFixJsonStructure
  simp only [h1, h2]

/-- Witness for C6 at a concrete unrepairable input. -/
theorem validateAndFix_returns_original_on_failure_witness :
    validateAndFixJsonStructure "\x7b\"a\":[1" = "\x7b\"a\":[1" :=
  validateAndFix_returns_original_on_failure _ (by decide) (by decide)

/-! ## Multipart form-data builder (createMultipartFormData) and a conforming
multipart parser (claim C3)

Node Buffer.from on a string encodes it as UTF-8; byte buffers are modeled
as lists of naturals below 256. -/

/-- UTF-8 encoding of one character. -/
def utf8Char (c : Char) : List Nat :=
  let n := c.toNat
  if n < 0x80 then [n]
  else if n < 0x800 then [0xC0 + n / 0x40, 0x80 + n % 0x40]
  else if n < 0x10000 then
    [0xE0 + n / 0x1000, 0x80 + (n / 0x40) % 0x40, 0x80 + n % 0x40]
  else
    [0xF0 + n / 0x40000, 0x80 + (n / 0x1000) % 0x40, 0x80 + (n / 0x40) % 0x40,
      0x80 + n % 0x40]

/-- UTF-8 encoding of a string as a byte list (the model of Buffer.from). -/
def utf8 (s : String) : List Nat := s.data.foldr (fun c acc => utf8Char c ++ acc) []

/-- A file descriptor as passed to createMultipartFormData: raw bytes, a
filename and a content type. -/
structure MFile where
  buffer : List Nat
  filename : String
  contentType : String
deriving DecidableEq, Repr

/-- Model of createMultipartFormData.  The random boundary suffix
(Math.random().toString(36).substring(2)) is an explicit parameter rnd; the
boundary is the fixed WebKit prefix followed by rnd, exactly as in the
source.  Fields are an association list in object-entry order.  Returns the
multipart body bytes and the content-type header value. -/
def createMultipartFormData (fields : List (String × String)) (file : MFile)
    (rnd : String) : List Nat × String :=
  let boundary := "----WebKitFormBoundary" ++ rnd
  let fieldParts : List (List Nat) := fields.map fun nv =>
    utf8 ("--" ++ boundary ++ "\r\n" ++
      "Content-Disposition: form-data; name=\"" ++ nv.1 ++ "\"\r\n\r\n" ++
      nv.2 ++ "\r\n")
  let fileHeader : List Nat :=
    utf8 ("--" ++ boundary ++ "\r\n" ++
      "Content-Disposition: form-data; name=\"document\"; filename=\"" ++
      file.filename ++ "\"\r\n" ++
      "Content-Type: " ++ file.contentType ++ "\r\n\r\n")
  let endPart : List Nat := utf8 ("--" ++ boundary ++ "--\r\n")
  let parts : List (List Nat) :=
    fieldParts ++ [fileHeader, file.buffer, utf8 "\r\n", endPart]
  (parts.flatten, "multipart/form-data; boundary=" ++ boundary)

/-- One decoded multipart part: either a simple form field (name and value
bytes) or a file part (name, filename, content-type and content bytes). -/
inductive MPart where
  | field : List Nat → List Nat → MPart
  | filePart : List Nat → List Nat → List Nat → List Nat → MPart
deriving DecidableEq, Repr

/-- Whether pat occurs at the head of l. -/
def isPfx : List Nat → List Nat → Bool
  | [], _ => true
  | _ :: _, [] => false
  | p :: ps, x :: xs => p = x && isPfx ps xs

/-- Index of the first occurrence of pat in l, if any. -/
def findPat (pat : List Nat) : List Nat → Option Nat
  | [] => if isPfx pat [] then some 0 else none
  | x :: xs => if isPfx pat (x :: xs) then some 0 else (findPat pat xs).map (· + 1)

/-- Split l around the first occurrence of pat: the bytes before it and the
bytes after it. -/
def splitFirst (pat l : List Nat) : Option (List Nat × List Nat) :=
  (findPat pat l).map fun i => (l.take i, l.drop (i + pat.length))

/-- Drop a required literal prefix. -/
def dropLit (pfx l : List Nat) : Option (List Nat) :=
  if isPfx pfx l then some (l.drop pfx.length) else none

/-- Parse the header section of one multipart part (the bytes before the
blank line) together with its content, per RFC 2046 / RFC 7578: a
Content-Disposition header carrying the part name and, for a file part, a
filename and a Content-Type header. -/
def parsePart (p : List Nat) : Option MPart :=
  match splitFirst [13, 10, 13, 10] p with
  | none => none
  | some (hdr, content) =>
    match dropLit (utf8 "Content-Disposition: form-data; name=\"") hdr with
    | none => none
    | some h1 =>
      match splitFirst [34] h1 with
      | none => none
      | some (nm, afterQuote) =>
        if afterQuote = [] then some (.field nm content)
        else
          match dropLit (utf8 "; filename=\"") afterQuote with
          | none => none
          | some h2 =>
            match splitFirst [34] h2 with
            | none => none
            | some (fn, rest2) =>
              match dropLit ([13, 10] ++ utf8 "Content-Type: ") rest2 with
              | none => none
              | some ct => some (.filePart nm fn ct content)

/-- Parse the sequence of parts after a dash-boundary delimiter: either the
final two dashes (any epilogue is ignored, as a conforming parser does), or a
CRLF followed by one part that extends to the next delimiter. -/
def parseAfterDelim (bnd : List Nat) (fuel : Nat) (r : List Nat) :
    Option (List MPart) :=
  match fuel with
  | 0 => none
  | fuel + 1 =>
    if isPfx [45, 45] r then some []
    else
      match dropLit [13, 10] r with
      | none => none
      | some r2 =>
        match splitFirst ([13, 10, 45, 45] ++ bnd) r2 with
        | none => none
        | some (partBytes, rest) =>
          match parsePart partBytes with
          | none => none
          | some pt =>
            match parseAfterDelim bnd fuel rest with
            | none => none
            | some ps => some (pt :: ps)

/-- A conforming multipart/form-data parser: extract the boundary from the
content-type header value, require the body to open with the dash-boundary,
and split the body into parts at each delimiter. -/
def parseMultipart (contentType : String) (body : List Nat) :
    Option (List MPart) :=
  let pfx := "multipart/form-data; boundary=".data
  if contentType.data.take pfx.length = pfx then
    let bnd := utf8 (String.mk (contentType.data.drop pfx.length))
    match dropLit ([45, 45] ++ bnd) body with
    | none => none
    | some r => parseAfterDelim bnd (body.length + 1) r
  else none

/-! ### Byte-list lemmas for the multipart round-trip -/

theorem utf8_append (a b : String) : utf8 (a ++ b) = utf8 a ++ utf8 b := by
  unfold utf8
  rw [String.data_append, List.foldr_append]
  induction a.data with
  | nil => rfl
  | cons c cs ih => simp [List.foldr_cons, ih, List.append_assoc]

theorem isPfx_append_self (p r : List Nat) : isPfx p (p ++ r) = true := by
  induction p with
  | nil => rfl
  | cons x xs ih => simp [isPfx, ih]

theorem isPfx_nil_of_ne (p : List Nat) (h : p ≠ []) : isPfx p [] = false := by
  cases p with
  | nil => exact absurd rfl h
  | cons x xs => rfl

theorem isPfx_head (p l : List Nat) (b : Nat) (hp : p.head? = some b)
    (h : isPfx p l = true) : l.head? = some b := by
  cases p with
  | nil => simp at hp
  | cons x xs =>
    cases l with
    | nil => simp [isPfx] at h
    | cons y ys =>
      simp [isPfx] at h
      simp at hp
      simp [hp ▸ h.1]

theorem isPfx_cons_false (x : Nat) (xs : List Nat) (b : Nat) (p : List Nat)
    (hp : p.head? = some b) (hx : x ≠ b) : isPfx p (x :: xs) = false := by
  cases p with
  | nil => simp at hp
  | cons q qs =>
    simp at hp
    subst hp
    simp [isPfx]
    intro h
    exact absurd h.symm hx

theorem isPfx_take (p l : List Nat) :
    isPfx p l = true ↔ p.length ≤ l.length ∧ l.take p.length = p := by
  induction p generalizing l with
  | nil => simp [isPfx]
  | cons x xs ih =>
    cases l with
    | nil => simp [isPfx]
    | cons y ys =>
      simp [isPfx, ih ys, List.take_succ_cons, Nat.succ_le_succ_iff]
      constructor
      · rintro ⟨h1, h2, h3⟩
        exact ⟨h2, h1.symm, h3⟩
      · rintro ⟨h1, h2, h3⟩
        exact ⟨h2.symm, h1, h3⟩

/-- An occurrence of p at the head of an append either lies at the head of
the left list, or spans into the right list, pinning the right list's head. -/
theorem isPfx_append_cases (p v r : List Nat) (h : isPfx p (v ++ r) = true) :
    isPfx p v = true ∨
    (v.length < p.length ∧ isPfx (p.drop v.length) r = true) := by
  rcases (isPfx_take p (v ++ r)).mp h with ⟨hlen, htake⟩
  by_cases hvle : p.length ≤ v.length
  · left
    rw [isPfx_take]
    refine ⟨hvle, ?_⟩
    rw [List.take_append_of_le_length hvle] at htake
    exact htake
  · right
    push_neg at hvle
    have hvtake : v.take p.length = v := List.take_of_length_le (le_of_lt hvle)
    have hsplitp : p = v ++ r.take (p.length - v.length) := by
      rw [List.take_append_eq_append_take, hvtake] at htake
      exact htake.symm
    have hdropp : p.drop v.length = r.take (p.length - v.length) := by
      conv_lhs => rw [hsplitp]
      rw [List.drop_left]
    have hlen2 : p.length - v.length ≤ r.length := by
      rw [List.length_append] at hlen
      omega
    refine ⟨hvle, ?_⟩
    rw [isPfx_take, hdropp]
    constructor
    · rw [List.length_take]
      omega
    · rw [List.length_take]
      have hm : min (p.length - v.length) r.length = p.length - v.length := by omega
      rw [hm]

theorem isPfx_append_head (p v r : List Nat) (b : Nat) (hb : b ∉ p)
    (hv : isPfx p v = false) (hr : r.head? = some b) :
    isPfx p (v ++ r) = false := by
  by_contra hcon
  rw [Bool.not_eq_false] at hcon
  rcases isPfx_append_cases p v r hcon with h | ⟨hlt, hsp⟩
  · rw [hv] at h
    exact Bool.false_ne_true h
  · have hdropne : p.drop v.length ≠ [] := by
      intro he
      have := List.length_drop v.length p ▸ congrArg List.length he
      simp at this
      omega
    obtain ⟨q, qs, hq⟩ := List.exists_cons_of_ne_nil hdropne
    have hhead : (p.drop v.length).head? = some q := by rw [hq]; rfl
    have hqr := isPfx_head _ _ _ hhead hsp
    rw [hr] at hqr
    injection hqr with hqb
    apply hb
    rw [hqb]
    exact List.mem_of_mem_drop (hq ▸ List.mem_cons_self q qs)

theorem findPat_cons (pat : List Nat) (x : Nat) (xs : List Nat)
    (h : isPfx pat (x :: xs) = false) :
    findPat pat (x :: xs) = (findPat pat xs).map (· + 1) := by
  simp [findPat, h]

theorem findPat_self (pat b : List Nat) (hpat : pat ≠ []) :
    findPat pat (pat ++ b) = some 0 := by
  obtain ⟨q, qs, hq⟩ := List.exists_cons_of_ne_nil hpat
  subst hq
  have h : isPfx (q :: qs) (q :: (qs ++ b)) = true := by
    rw [← List.cons_append]
    exact isPfx_append_self _ _
  rw [List.cons_append]
  simp [findPat, h]

/-- Finding a pattern beyond a head-byte-free zone: if no byte of x equals
the pattern's first byte, the first occurrence in x ++ l is the first
occurrence in l shifted by the length of x. -/
theorem findPat_append_clear (pat : List Nat) (b : Nat) (hpat : pat.head? = some b)
    (x l : List Nat) (hx : ∀ y ∈ x, y ≠ b) :
    findPat pat (x ++ l) = (findPat pat l).map (· + x.length) := by
  induction x with
  | nil => simp
  | cons c cs ih =>
    have hc : c ≠ b := hx c (List.mem_cons_self c cs)
    have h1 : isPfx pat (c :: (cs ++ l)) = false := isPfx_cons_false c _ b pat hpat hc
    rw [List.cons_append, findPat_cons pat c _ h1,
      ih (fun y hy => hx y (List.mem_cons_of_mem c hy))]
    cases findPat pat l with
    | none => rfl
    | some n =>
      simp [Option.map]
      omega

theorem splitFirst_of_findPat (pat a b : List Nat) (_hpat : pat ≠ [])
    (h : findPat pat (a ++ pat ++ b) = some a.length) :
    splitFirst pat (a ++ pat ++ b) = some (a, b) := by
  unfold splitFirst
  rw [h]
  simp only [Option.map]
  congr 1
  refine Prod.ext ?_ ?_
  · show List.take a.length (a ++ pat ++ b) = a
    rw [List.append_assoc, List.take_left]
  · show List.drop (a.length + pat.length) (a ++ pat ++ b) = b
    rw [← List.length_append a pat, List.drop_left]

theorem isPfx_false_of_heads (p l : List Nat) (b c : Nat) (hp : p.head? = some b)
    (hl : l.head? = some c) (hbc : c ≠ b) : isPfx p l = false := by
  cases p with
  | nil => simp at hp
  | cons q qs =>
    cases l with
    | nil => simp at hl
    | cons y ys =>
      simp at hp hl
      subst hp
      subst hl
      simp [isPfx]
      intro h
      exact absurd h.symm hbc

theorem head?_append_left (l r : List Nat) (c : Nat) (h : l.head? = some c) :
    (l ++ r).head? = some c := by
  cases l with
  | nil => simp at h
  | cons x xs =>
    simp at h
    simp [h]

theorem dropLit_append (p r : List Nat) : dropLit p (p ++ r) = some r := by
  unfold dropLit
  rw [if_pos (isPfx_append_self p r), List.drop_left]

theorem forall_ne_append {x y : List Nat} {b : Nat} (hx : ∀ a ∈ x, a ≠ b)
    (hy : ∀ a ∈ y, a ≠ b) : ∀ a ∈ x ++ y, a ≠ b := by
  intro a ha
  rcases List.mem_append.mp ha with h | h
  · exact hx a h
  · exact hy a h

theorem forall_ne_of_not_mem {x : List Nat} {b : Nat} (h : b ∉ x) :
    ∀ a ∈ x, a ≠ b := fun _ ha hb => h (hb ▸ ha)

/-! ### Structure of the serialized multipart body -/

/-- The delimiter that separates multipart parts: CRLF, two dashes and the
boundary bytes. -/
def mpDelim (bnd : List Nat) : List Nat := [13, 10, 45, 45] ++ bnd

/-- Bytes of the Content-Disposition header prefix shared by all parts. -/
def cdPfxBytes : List Nat := utf8 "Content-Disposition: form-data; name=\""

/-- Bytes that follow the name in the file part header: closing quote and
the filename attribute opener. -/
def fnPfxBytes : List Nat := utf8 "; filename=\""

/-- Bytes of the Content-Type header name and separator. -/
def ctPfxBytes : List Nat := utf8 "Content-Type: "

/-- The bytes of one serialized field part, between delimiters: header line,
blank line, value. -/
def mpFieldPart (n v : List Nat) : List Nat :=
  cdPfxBytes ++ n ++ ([34, 13, 10, 13, 10] ++ v)

/-- The bytes of the serialized file part, between delimiters: disposition
line with filename, content-type line, blank line, raw content. -/
def mpFilePart (fn ct buf : List Nat) : List Nat :=
  cdPfxBytes ++ utf8 "document" ++ ([34] ++ fnPfxBytes) ++ fn ++
    ([34, 13, 10] ++ ctPfxBytes) ++ ct ++ ([13, 10, 13, 10] ++ buf)

/-- The serialized body after the leading dash-boundary: for each field a
CRLF, the part and a delimiter; then the file part and the closing
double-dash line. -/
def mpInterior (bnd : List Nat) (fields : List (List Nat × List Nat))
    (fn ct buf : List Nat) : List Nat :=
  match fields with
  | [] => [13, 10] ++ mpFilePart fn ct buf ++ (mpDelim bnd ++ [45, 45, 13, 10])
  | nv :: rest =>
    [13, 10] ++ mpFieldPart nv.1 nv.2 ++ (mpDelim bnd ++ mpInterior bnd rest fn ct buf)

theorem utf8_dashes : utf8 "--" = [45, 45] := by decide

theorem utf8_crlf : utf8 "\r\n" = [13, 10] := by decide

theorem utf8_quote_crlf2 : utf8 "\"\r\n\r\n" = [34, 13, 10, 13, 10] := by decide

theorem utf8_quote_crlf : utf8 "\"\r\n" = [34, 13, 10] := by decide

theorem utf8_end_line : utf8 "--\r\n" = [45, 45, 13, 10] := by decide

theorem utf8_crlf2 : utf8 "\r\n\r\n" = [13, 10, 13, 10] := by decide

theorem utf8_cdf_split :
    utf8 "Content-Disposition: form-data; name=\"document\"; filename=\"" =
      cdPfxBytes ++ utf8 "document" ++ ([34] ++ fnPfxBytes) := by decide

/-- The flattened chunk list produced by createMultipartFormData, regrouped
around the part delimiters. -/
theorem flatten_chunks (fields : List (String × String)) (fn ct : String)
    (buf : List Nat) (boundary : String) :
    (List.map (fun nv =>
        utf8 ("--" ++ boundary ++ "\r\n" ++
          "Content-Disposition: form-data; name=\"" ++ nv.1 ++ "\"\r\n\r\n" ++
          nv.2 ++ "\r\n")) fields ++
      [utf8 ("--" ++ boundary ++ "\r\n" ++
          "Content-Disposition: form-data; name=\"document\"; filename=\"" ++
          fn ++ "\"\r\n" ++ "Content-Type: " ++ ct ++ "\r\n\r\n"),
        buf, utf8 "\r\n", utf8 ("--" ++ boundary ++ "--\r\n")]).flatten
    = ([45, 45] ++ utf8 boundary) ++
        mpInterior (utf8 boundary) (fields.map fun nv => (utf8 nv.1, utf8 nv.2))
          (utf8 fn) (utf8 ct) buf := by
  induction fields with
  | nil =>
    simp only [List.map_nil, List.nil_append, List.flatten_cons, List.flatten_nil,
      List.append_nil, mpInterior, mpFilePart, mpDelim, ctPfxBytes, utf8_append,
      utf8_dashes, utf8_crlf, utf8_crlf2, utf8_quote_crlf, utf8_end_line,
      utf8_cdf_split]
    simp only [List.append_assoc, List.cons_append, List.nil_append]
  | cons nv rest ih =>
    rw [List.map_cons, List.cons_append, List.flatten_cons, ih]
    simp only [List.map_cons, mpInterior, mpFieldPart, mpDelim, cdPfxBytes,
      utf8_append, utf8_dashes, utf8_crlf, utf8_quote_crlf2]
    simp only [List.append_assoc, List.cons_append, List.nil_append]

/-- The body built by createMultipartFormData equals the leading
dash-boundary followed by the regrouped interior. -/
theorem multipart_body_decomp (fields : List (String × String)) (file : MFile)
    (rnd : String) :
    (createMultipartFormData fields file rnd).1
      = ([45, 45] ++ utf8 ("----WebKitFormBoundary" ++ rnd)) ++
        mpInterior (utf8 ("----WebKitFormBoundary" ++ rnd))
          (fields.map fun nv => (utf8 nv.1, utf8 nv.2))
          (utf8 file.filename) (utf8 file.contentType) file.buffer := by
  unfold createMultipartFormData
  exact flatten_chunks fields file.filename file.contentType file.buffer _

/-! ### Locating delimiters in the serialized stream -/

theorem splitFirst_clear_self (pat : List Nat) (b0 : Nat) (hpat : pat.head? = some b0)
    (hne : pat ≠ []) (x b : List Nat) (hx : ∀ a ∈ x, a ≠ b0) :
    splitFirst pat (x ++ (pat ++ b)) = some (x, b) := by
  rw [← List.append_assoc]
  apply splitFirst_of_findPat pat x b hne
  rw [List.append_assoc, findPat_append_clear pat b0 hpat x _ hx, findPat_self pat b hne]
  simp

theorem findPat_map_add (pat l : List Nat) (n m : Nat)
    (h : findPat pat l = some n) :
    (findPat pat l).map (· + m) = some (n + m) := by
  rw [h]
  rfl

/-- Stepping the four-byte header/content separator search over a leading
CRLF that is followed by a Content-Type line (first byte 67). -/
theorem findPat_pat4_after_crlf (y : List Nat) (hy : y.head? = some 67) :
    findPat [13, 10, 13, 10] (13 :: 10 :: y)
      = (findPat [13, 10, 13, 10] y).map (· + 2) := by
  have h0 : isPfx [13, 10, 13, 10] (13 :: 10 :: y) = false := by
    have : isPfx [13, 10] y = false :=
      isPfx_false_of_heads _ y 13 67 rfl hy (by decide)
    simp [isPfx, this]
  have h1 : isPfx [13, 10, 13, 10] (10 :: y) = false :=
    isPfx_cons_false 10 y 13 _ rfl (by decide)
  rw [findPat_cons _ _ _ h0, findPat_cons _ _ _ h1]
  cases findPat [13, 10, 13, 10] y with
  | none => rfl
  | some n => simp [Option.map]

/-- Locating the part delimiter when the stream continues with the blank
line, the part content (carriage-return-free and not starting with the
dash-boundary) and then the delimiter itself. -/
theorem findPat_dlm_pat4block (bnd v rest : List Nat) (hb13 : (13 : Nat) ∉ bnd)
    (hv13 : (13 : Nat) ∉ v) (hvp : isPfx ([45, 45] ++ bnd) v = false) :
    findPat (mpDelim bnd) (13 :: 10 :: 13 :: 10 :: (v ++ (mpDelim bnd ++ rest)))
      = some (v.length + 4) := by
  have hb13' : (13 : Nat) ∉ [45, 45] ++ bnd := by
    intro h
    rcases List.mem_append.mp h with h | h
    · simp at h
    · exact hb13 h
  have hdhead : (mpDelim bnd ++ rest).head? = some 13 := by
    show ((13 :: ([10, 45, 45] ++ bnd)) ++ rest).head? = some 13
    rfl
  have h0 : isPfx (mpDelim bnd) (13 :: 10 :: 13 :: 10 :: (v ++ (mpDelim bnd ++ rest))) = false := by
    show isPfx ([13, 10, 45, 45] ++ bnd) _ = false
    simp [isPfx]
  have h1 : isPfx (mpDelim bnd) (10 :: 13 :: 10 :: (v ++ (mpDelim bnd ++ rest))) = false :=
    isPfx_cons_false 10 _ 13 _ rfl (by decide)
  have h2 : isPfx (mpDelim bnd) (13 :: 10 :: (v ++ (mpDelim bnd ++ rest))) = false := by
    have hmain : isPfx ([45, 45] ++ bnd) (v ++ (mpDelim bnd ++ rest)) = false :=
      isPfx_append_head _ v _ 13 hb13' hvp hdhead
    have hmain2 : isPfx (45 :: 45 :: bnd) (v ++ (mpDelim bnd ++ rest)) = false := hmain
    show isPfx ([13, 10, 45, 45] ++ bnd) _ = false
    simp [isPfx, hmain2]
  have h3 : isPfx (mpDelim bnd) (10 :: (v ++ (mpDelim bnd ++ rest))) = false :=
    isPfx_cons_false 10 _ 13 _ rfl (by decide)
  have hdne : mpDelim bnd ≠ [] := by
    show (13 :: ([10, 45, 45] ++ bnd)) ≠ []
    simp
  have hdh : (mpDelim bnd).head? = some 13 := rfl
  rw [findPat_cons _ _ _ h0, findPat_cons _ _ _ h1, findPat_cons _ _ _ h2,
    findPat_cons _ _ _ h3,
    findPat_append_clear (mpDelim bnd) 13 hdh v _ (forall_ne_of_not_mem hv13),
    findPat_self _ rest hdne]
  simp [Option.map]

theorem cdPfxBytes_no13 : ∀ a ∈ cdPfxBytes, a ≠ 13 := by decide

theorem splitFirst_dlm_fieldPart (bnd n v rest : List Nat)
    (hb13 : (13 : Nat) ∉ bnd) (hn13 : (13 : Nat) ∉ n) (hv13 : (13 : Nat) ∉ v)
    (hvp : isPfx ([45, 45] ++ bnd) v = false) :
    splitFirst (mpDelim bnd) (mpFieldPart n v ++ (mpDelim bnd ++ rest))
      = some (mpFieldPart n v, rest) := by
  have hclear : ∀ a ∈ cdPfxBytes ++ (n ++ [34]), a ≠ 13 :=
    forall_ne_append cdPfxBytes_no13
      (forall_ne_append (forall_ne_of_not_mem hn13) (by decide))
  have hshape : mpFieldPart n v ++ (mpDelim bnd ++ rest)
      = (cdPfxBytes ++ (n ++ [34])) ++
        (13 :: 10 :: 13 :: 10 :: (v ++ (mpDelim bnd ++ rest))) := by
    unfold mpFieldPart
    simp only [List.append_assoc, List.cons_append, List.nil_append]
  have hfind : findPat (mpDelim bnd) (mpFieldPart n v ++ (mpDelim bnd ++ rest))
      = some ((mpFieldPart n v).length) := by
    rw [hshape,
      findPat_append_clear (mpDelim bnd) 13 rfl _ _ hclear,
      findPat_dlm_pat4block bnd v rest hb13 hv13 hvp]
    simp only [Option.map_some']
    congr 1
    unfold mpFieldPart
    simp only [List.length_append, List.length_cons, List.length_nil]
    omega
  have := splitFirst_of_findPat (mpDelim bnd) (mpFieldPart n v) rest
    (by show (13 :: ([10, 45, 45] ++ bnd)) ≠ []; simp)
    (by rw [List.append_assoc]; exact hfind)
  rw [List.append_assoc] at this
  exact this

theorem splitFirst_dlm_filePart (bnd fn ct buf rest : List Nat)
    (hb13 : (13 : Nat) ∉ bnd) (hfn13 : (13 : Nat) ∉ fn) (hct13 : (13 : Nat) ∉ ct)
    (hbuf13 : (13 : Nat) ∉ buf) (hbufp : isPfx ([45, 45] ++ bnd) buf = false) :
    splitFirst (mpDelim bnd) (mpFilePart fn ct buf ++ (mpDelim bnd ++ rest))
      = some (mpFilePart fn ct buf, rest) := by
  have hclear1 : ∀ a ∈ cdPfxBytes ++ (utf8 "document" ++ ([34] ++ (fnPfxBytes ++ (fn ++ [34])))), a ≠ 13 := by
    refine forall_ne_append cdPfxBytes_no13 ?_
    refine forall_ne_append (by decide) ?_
    refine forall_ne_append (by decide) ?_
    refine forall_ne_append (by decide) ?_
    exact forall_ne_append (forall_ne_of_not_mem hfn13) (by decide)
  have hclear2 : ∀ a ∈ ctPfxBytes ++ ct, a ≠ 13 :=
    forall_ne_append (by decide) (forall_ne_of_not_mem hct13)
  have hcthead : ((ctPfxBytes ++ ct) ++ (13 :: 10 :: 13 :: 10 :: (buf ++ (mpDelim bnd ++ rest)))).head? = some 67 := by
    apply head?_append_left
    apply head?_append_left
    decide
  have hshape : mpFilePart fn ct buf ++ (mpDelim bnd ++ rest)
      = (cdPfxBytes ++ (utf8 "document" ++ ([34] ++ (fnPfxBytes ++ (fn ++ [34]))))) ++
        (13 :: 10 :: ((ctPfxBytes ++ ct) ++
          (13 :: 10 :: 13 :: 10 :: (buf ++ (mpDelim bnd ++ rest))))) := by
    unfold mpFilePart
    simp only [List.append_assoc, List.cons_append, List.nil_append]
  have hcrlf : findPat (mpDelim bnd)
      (13 :: 10 :: ((ctPfxBytes ++ ct) ++ (13 :: 10 :: 13 :: 10 :: (buf ++ (mpDelim bnd ++ rest)))))
      = some (2 + (ctPfxBytes ++ ct).length + (buf.length + 4)) := by
    have h0 : isPfx (mpDelim bnd)
        (13 :: 10 :: ((ctPfxBytes ++ ct) ++ (13 :: 10 :: 13 :: 10 :: (buf ++ (mpDelim bnd ++ rest))))) = false := by
      have hm : isPfx (45 :: 45 :: bnd)
          ((ctPfxBytes ++ ct) ++ (13 :: 10 :: 13 :: 10 :: (buf ++ (mpDelim bnd ++ rest)))) = false :=
        isPfx_false_of_heads _ _ 45 67 rfl hcthead (by decide)
      show isPfx ([13, 10, 45, 45] ++ bnd) _ = false
      simp [isPfx, hm]
    have h1 : isPfx (mpDelim bnd)
        (10 :: ((ctPfxBytes ++ ct) ++ (13 :: 10 :: 13 :: 10 :: (buf ++ (mpDelim bnd ++ rest))))) = false :=
      isPfx_cons_false 10 _ 13 _ rfl (by decide)
    rw [findPat_cons _ _ _ h0, findPat_cons _ _ _ h1,
      findPat_append_clear (mpDelim bnd) 13 rfl _ _ hclear2,
      findPat_dlm_pat4block bnd buf rest hb13 hbuf13 hbufp]
    simp [Option.map]
    omega
  have hfind : findPat (mpDelim bnd) (mpFilePart fn ct buf ++ (mpDelim bnd ++ rest))
      = some ((mpFilePart fn ct buf).length) := by
    rw [hshape, findPat_append_clear (mpDelim bnd) 13 rfl _ _ hclear1, hcrlf]
    simp only [Option.map_some']
    congr 1
    unfold mpFilePart
    simp only [List.length_append, List.length_cons, List.length_nil]
    omega
  have := splitFirst_of_findPat (mpDelim bnd) (mpFilePart fn ct buf) rest
    (by show (13 :: ([10, 45, 45] ++ bnd)) ≠ []; simp)
    (by rw [List.append_assoc]; exact hfind)
  rw [List.append_assoc] at this
  exact this

/-! ### Parsing one serialized part -/

theorem parsePart_field (n v : List Nat) (hn13 : (13 : Nat) ∉ n)
    (hn34 : (34 : Nat) ∉ n) :
    parsePart (mpFieldPart n v) = some (.field n v) := by
  have hshape : mpFieldPart n v = (cdPfxBytes ++ (n ++ [34])) ++ ([13, 10, 13, 10] ++ v) := by
    unfold mpFieldPart
    simp only [List.append_assoc, List.cons_append, List.nil_append]
  have hsplit : splitFirst [13, 10, 13, 10] (mpFieldPart n v)
      = some (cdPfxBytes ++ (n ++ [34]), v) := by
    rw [hshape]
    exact splitFirst_clear_self [13, 10, 13, 10] 13 rfl (by simp) _ v
      (forall_ne_append cdPfxBytes_no13
        (forall_ne_append (forall_ne_of_not_mem hn13) (by decide)))
  have hdl : dropLit (utf8 "Content-Disposition: form-data; name=\"")
      (cdPfxBytes ++ (n ++ [34])) = some (n ++ [34]) :=
    dropLit_append cdPfxBytes (n ++ [34])
  have hname : splitFirst [34] (n ++ [34]) = some (n, []) := by
    have h : n ++ [34] = n ++ ([34] ++ []) := by simp
    rw [h]
    exact splitFirst_clear_self [34] 34 rfl (by simp) n [] (forall_ne_of_not_mem hn34)
  simp only [parsePart, hsplit, hdl, hname]
  simp

theorem fnPfxBytes_val :
    fnPfxBytes = [59, 32, 102, 105, 108, 101, 110, 97, 109, 101, 61, 34] := by decide

theorem parsePart_file (fn ct buf : List Nat) (hfn13 : (13 : Nat) ∉ fn)
    (hfn34 : (34 : Nat) ∉ fn) (hct13 : (13 : Nat) ∉ ct) :
    parsePart (mpFilePart fn ct buf)
      = some (.filePart (utf8 "document") fn ct buf) := by
  have hclearA : ∀ a ∈ cdPfxBytes ++ (utf8 "document" ++ ([34] ++ (fnPfxBytes ++ (fn ++ [34])))), a ≠ 13 := by
    refine forall_ne_append cdPfxBytes_no13 ?_
    refine forall_ne_append (by decide) ?_
    refine forall_ne_append (by decide) ?_
    refine forall_ne_append (by decide) ?_
    exact forall_ne_append (forall_ne_of_not_mem hfn13) (by decide)
  have hshape : mpFilePart fn ct buf
      = (cdPfxBytes ++ (utf8 "document" ++ ([34] ++ (fnPfxBytes ++ (fn ++ [34]))))) ++
        (13 :: 10 :: (ctPfxBytes ++ (ct ++ ([13, 10, 13, 10] ++ buf)))) := by
    unfold mpFilePart
    simp only [List.append_assoc, List.cons_append, List.nil_append]
  have hcrlf : findPat [13, 10, 13, 10]
      (13 :: 10 :: (ctPfxBytes ++ (ct ++ ([13, 10, 13, 10] ++ buf))))
      = some (2 + ((ctPfxBytes ++ ct).length)) := by
    have hy : (ctPfxBytes ++ (ct ++ ([13, 10, 13, 10] ++ buf))).head? = some 67 := by
      apply head?_append_left
      decide
    rw [findPat_pat4_after_crlf _ hy]
    have hre : ctPfxBytes ++ (ct ++ ([13, 10, 13, 10] ++ buf))
        = (ctPfxBytes ++ ct) ++ ([13, 10, 13, 10] ++ buf) := by
      simp only [List.append_assoc]
    rw [hre, findPat_append_clear [13, 10, 13, 10] 13 rfl _ _
        (forall_ne_append (by decide) (forall_ne_of_not_mem hct13)),
      findPat_self _ buf (by simp)]
    simp [Option.map]
    omega
  have hfind : findPat [13, 10, 13, 10] (mpFilePart fn ct buf)
      = some ((cdPfxBytes ++ (utf8 "document" ++ ([34] ++ (fnPfxBytes ++ (fn ++ [34]))))) ++
          (13 :: 10 :: (ctPfxBytes ++ ct))).length := by
    rw [hshape, findPat_append_clear [13, 10, 13, 10] 13 rfl _ _ hclearA, hcrlf]
    simp only [Option.map_some']
    congr 1
    simp only [List.length_append, List.length_cons]
    omega
  have hsplit : splitFirst [13, 10, 13, 10] (mpFilePart fn ct buf)
      = some ((cdPfxBytes ++ (utf8 "document" ++ ([34] ++ (fnPfxBytes ++ (fn ++ [34]))))) ++
          (13 :: 10 :: (ctPfxBytes ++ ct)), buf) := by
    have hshape2 : mpFilePart fn ct buf
        = ((cdPfxBytes ++ (utf8 "document" ++ ([34] ++ (fnPfxBytes ++ (fn ++ [34]))))) ++
            (13 :: 10 :: (ctPfxBytes ++ ct))) ++ [13, 10, 13, 10] ++ buf := by
      rw [hshape]
      simp only [List.append_assoc, List.cons_append, List.nil_append]
    rw [hshape2]
    apply splitFirst_of_findPat _ _ _ (by simp)
    rw [← hshape2]
    exact hfind
  have hdl1 : dropLit (utf8 "Content-Disposition: form-data; name=\"")
      ((cdPfxBytes ++ (utf8 "document" ++ ([34] ++ (fnPfxBytes ++ (fn ++ [34]))))) ++
        (13 :: 10 :: (ctPfxBytes ++ ct)))
      = some (utf8 "document" ++ ([34] ++ (fnPfxBytes ++ (fn ++ ([34, 13, 10] ++ (ctPfxBytes ++ ct)))))) := by
    have hre : (cdPfxBytes ++ (utf8 "document" ++ ([34] ++ (fnPfxBytes ++ (fn ++ [34]))))) ++
          (13 :: 10 :: (ctPfxBytes ++ ct))
        = cdPfxBytes ++ (utf8 "document" ++ ([34] ++ (fnPfxBytes ++ (fn ++ ([34, 13, 10] ++ (ctPfxBytes ++ ct)))))) := by
      simp only [List.append_assoc, List.cons_append, List.nil_append]
    rw [hre]
    exact dropLit_append cdPfxBytes _
  have hname : splitFirst [34]
      (utf8 "document" ++ ([34] ++ (fnPfxBytes ++ (fn ++ ([34, 13, 10] ++ (ctPfxBytes ++ ct))))))
      = some (utf8 "document", fnPfxBytes ++ (fn ++ ([34, 13, 10] ++ (ctPfxBytes ++ ct)))) :=
    splitFirst_clear_self [34] 34 rfl (by simp) _ _ (by decide)
  have hneq : fnPfxBytes ++ (fn ++ ([34, 13, 10] ++ (ctPfxBytes ++ ct))) ≠ [] := by
    rw [fnPfxBytes_val]
    simp
  have hdl2 : dropLit (utf8 "; filename=\"")
      (fnPfxBytes ++ (fn ++ ([34, 13, 10] ++ (ctPfxBytes ++ ct))))
      = some (fn ++ ([34, 13, 10] ++ (ctPfxBytes ++ ct))) :=
    dropLit_append fnPfxBytes _
  have hname2 : splitFirst [34] (fn ++ ([34, 13, 10] ++ (ctPfxBytes ++ ct)))
      = some (fn, [13, 10] ++ (ctPfxBytes ++ ct)) := by
    have hre : fn ++ ([34, 13, 10] ++ (ctPfxBytes ++ ct))
        = fn ++ ([34] ++ ([13, 10] ++ (ctPfxBytes ++ ct))) := by
      simp only [List.append_assoc, List.cons_append, List.nil_append]
    rw [hre]
    exact splitFirst_clear_self [34] 34 rfl (by simp) fn _ (forall_ne_of_not_mem hfn34)
  have hdl3 : dropLit ([13, 10] ++ utf8 "Content-Type: ") ([13, 10] ++ (ctPfxBytes ++ ct))
      = some ct := by
    have hre : [13, 10] ++ (ctPfxBytes ++ ct) = ([13, 10] ++ ctPfxBytes) ++ ct := by
      simp only [List.append_assoc]
    rw [hre]
    exact dropLit_append ([13, 10] ++ ctPfxBytes) ct
  simp only [parsePart, hsplit, hdl1, hname, hdl2, hname2, hdl3]
  rw [if_neg hneq]

/-! ### The part-splitting loop -/

theorem parseAfterDelim_step (bnd : List Nat) (fuel : Nat) (pb : List Nat)
    (pt : MPart) (rest : List Nat)
    (hsplit : splitFirst (mpDelim bnd) (pb ++ (mpDelim bnd ++ rest)) = some (pb, rest))
    (hpart : parsePart pb = some pt) :
    parseAfterDelim bnd (fuel + 1) (13 :: 10 :: (pb ++ (mpDelim bnd ++ rest)))
      = (parseAfterDelim bnd fuel rest).map (pt :: ·) := by
  have h45 : isPfx [45, 45] (13 :: 10 :: (pb ++ (mpDelim bnd ++ rest))) = false := by
    simp [isPfx]
  have hdl : dropLit [13, 10] (13 :: 10 :: (pb ++ (mpDelim bnd ++ rest)))
      = some (pb ++ (mpDelim bnd ++ rest)) := dropLit_append [13, 10] _
  have hsplit2 : splitFirst ([13, 10, 45, 45] ++ bnd) (pb ++ (mpDelim bnd ++ rest))
      = some (pb, rest) := hsplit
  simp only [parseAfterDelim, h45, Bool.false_eq_true, if_false, hdl, hsplit2, hpart]
  cases parseAfterDelim bnd fuel rest <;> rfl

theorem parseAfterDelim_end (bnd : List Nat) (fuel : Nat) :
    parseAfterDelim bnd (fuel + 1) [45, 45, 13, 10] = some [] := by
  simp [parseAfterDelim, isPfx]

theorem parseAfterDelim_interior (bnd : List Nat) (hb13 : (13 : Nat) ∉ bnd)
    (fields : List (List Nat × List Nat)) (fn ct buf : List Nat)
    (hfn13 : (13 : Nat) ∉ fn) (hfn34 : (34 : Nat) ∉ fn) (hct13 : (13 : Nat) ∉ ct)
    (hbuf13 : (13 : Nat) ∉ buf) (hbufp : isPfx ([45, 45] ++ bnd) buf = false)
    (hf : ∀ nv ∈ fields, (13 : Nat) ∉ nv.1 ∧ (34 : Nat) ∉ nv.1 ∧ (13 : Nat) ∉ nv.2 ∧
      isPfx ([45, 45] ++ bnd) nv.2 = false) :
    ∀ fuel, parseAfterDelim bnd (fields.length + 2 + fuel) (mpInterior bnd fields fn ct buf)
      = some (fields.map (fun nv => MPart.field nv.1 nv.2) ++
          [MPart.filePart (utf8 "document") fn ct buf]) := by
  induction fields with
  | nil =>
    intro fuel
    have hshape : mpInterior bnd [] fn ct buf
        = 13 :: 10 :: (mpFilePart fn ct buf ++ (mpDelim bnd ++ [45, 45, 13, 10])) := by
      simp only [mpInterior]
      simp only [List.append_assoc, List.cons_append, List.nil_append]
    have harith : ([] : List (List Nat × List Nat)).length + 2 + fuel = (fuel + 1) + 1 := by
      simp
      omega
    rw [hshape, harith,
      parseAfterDelim_step bnd (fuel + 1) (mpFilePart fn ct buf) _ [45, 45, 13, 10]
        (splitFirst_dlm_filePart bnd fn ct buf [45, 45, 13, 10] hb13 hfn13 hct13 hbuf13 hbufp)
        (parsePart_file fn ct buf hfn13 hfn34 hct13),
      parseAfterDelim_end bnd fuel]
    rfl
  | cons nv rest ih =>
    intro fuel
    have hnv := hf nv (List.mem_cons_self nv rest)
    have hrest := fun nv' h => hf nv' (List.mem_cons_of_mem nv h)
    have hshape : mpInterior bnd (nv :: rest) fn ct buf
        = 13 :: 10 :: (mpFieldPart nv.1 nv.2 ++
            (mpDelim bnd ++ mpInterior bnd rest fn ct buf)) := by
      simp only [mpInterior]
      simp only [List.append_assoc, List.cons_append, List.nil_append]
    have harith : (nv :: rest).length + 2 + fuel = (rest.length + 2 + fuel) + 1 := by
      simp [List.length_cons]
      omega
    rw [hshape, harith,
      parseAfterDelim_step bnd (rest.length + 2 + fuel) (mpFieldPart nv.1 nv.2) _ _
        (splitFirst_dlm_fieldPart bnd nv.1 nv.2 _ hb13 hnv.1 hnv.2.2.1 hnv.2.2.2)
        (parsePart_field nv.1 nv.2 hnv.1 hnv.2.1),
      ih hrest fuel]
    rfl

theorem mpInterior_length (bnd : List Nat) (fields : List (List Nat × List Nat))
    (fn ct buf : List Nat) :
    fields.length + 1 ≤ (mpInterior bnd fields fn ct buf).length := by
  induction fields with
  | nil =>
    simp only [mpInterior]
    simp
  | cons nv rest ih =>
    simp only [mpInterior]
    simp only [List.length_cons, List.length_append]
    omega

/-- Claim C3 as amended: the byte buffer returned by createMultipartFormData,
parsed with the conforming multipart parser using the boundary carried in the
returned content-type value, yields exactly the supplied fields as string
parts and one file part named document with the given filename, content type
and bytes — provided no field name or the filename contains a carriage
return or double quote byte, no field value, content type, file byte or
boundary-suffix byte is a carriage return, and no field value or the file
content starts with the dash-dash-boundary sequence (otherwise the random
boundary can collide with the payload, as the counterexample shows). -/
theorem createMultipartFormData_roundtrip
    (fields : List (String × String)) (file : MFile) (rnd : String)
    (hrnd : (13 : Nat) ∉ utf8 rnd)
    (hf : ∀ nv ∈ fields, (13 : Nat) ∉ utf8 nv.1 ∧ (34 : Nat) ∉ utf8 nv.1 ∧
      (13 : Nat) ∉ utf8 nv.2 ∧
      isPfx ([45, 45] ++ utf8 ("----WebKitFormBoundary" ++ rnd)) (utf8 nv.2) = false)
    (hfn13 : (13 : Nat) ∉ utf8 file.filename)
    (hfn34 : (34 : Nat) ∉ utf8 file.filename)
    (hct13 : (13 : Nat) ∉ utf8 file.contentType)
    (hbuf13 : (13 : Nat) ∉ file.buffer)
    (hbufp : isPfx ([45, 45] ++ utf8 ("----WebKitFormBoundary" ++ rnd))
      file.buffer = false) :
    parseMultipart (createMultipartFormData fields file rnd).2
        (createMultipartFormData fields file rnd).1
      = some (fields.map (fun nv => MPart.field (utf8 nv.1) (utf8 nv.2)) ++
          [MPart.filePart (utf8 "document") (utf8 file.filename)
            (utf8 file.contentType) file.buffer]) := by
  have hb13 : (13 : Nat) ∉ utf8 ("----WebKitFormBoundary" ++ rnd) := by
    rw [utf8_append]
    intro h
    rcases List.mem_append.mp h with h | h
    · exact absurd h (by decide)
    · exact hrnd h
  have hctv : (createMultipartFormData fields file rnd).2
      = "multipart/form-data; boundary=" ++ ("----WebKitFormBoundary" ++ rnd) := rfl
  have hbody := multipart_body_decomp fields file rnd
  unfold parseMultipart
  rw [hctv, hbody]
  have hdata : ("multipart/form-data; boundary=" ++ ("----WebKitFormBoundary" ++ rnd)).data
      = "multipart/form-data; boundary=".data ++ ("----WebKitFormBoundary" ++ rnd).data :=
    String.data_append _ _
  have hmkdata : String.mk ("----WebKitFormBoundary" ++ rnd).data
      = "----WebKitFormBoundary" ++ rnd := rfl
  simp only [hdata, List.take_left, List.drop_left, eq_self_iff_true, if_true,
    hmkdata, dropLit_append]
  set bnd := utf8 ("----WebKitFormBoundary" ++ rnd) with hbnd
  set mfields := fields.map (fun nv => (utf8 nv.1, utf8 nv.2)) with hmf
  have hf2 : ∀ nv ∈ mfields, (13 : Nat) ∉ nv.1 ∧ (34 : Nat) ∉ nv.1 ∧
      (13 : Nat) ∉ nv.2 ∧ isPfx ([45, 45] ++ bnd) nv.2 = false := by
    intro nv hnv
    rw [hmf] at hnv
    obtain ⟨p, hp, hpe⟩ := List.mem_map.mp hnv
    subst hpe
    exact hf p hp
  have hloop := parseAfterDelim_interior bnd hb13 mfields
    (utf8 file.filename) (utf8 file.contentType) file.buffer
    hfn13 hfn34 hct13 hbuf13 hbufp hf2
  have hlen := mpInterior_length bnd mfields
    (utf8 file.filename) (utf8 file.contentType) file.buffer
  obtain ⟨fuel0, hfuel⟩ : ∃ f0,
      (([45, 45] ++ bnd) ++ mpInterior bnd mfields (utf8 file.filename)
        (utf8 file.contentType) file.buffer).length + 1
      = mfields.length + 2 + f0 := by
    refine ⟨(([45, 45] ++ bnd) ++ mpInterior bnd mfields (utf8 file.filename)
      (utf8 file.contentType) file.buffer).length + 1 - (mfields.length + 2), ?_⟩
    simp only [List.length_append]
    omega
  rw [hfuel, hloop fuel0]
  rw [hmf, List.map_map]
  rfl

/-- Claim C3 counterexample: with boundary suffix z and a field value that
itself contains the delimiter sequence, the parse of the built body does not
yield the supplied parts (it fails outright), so the claim as stated — for
every field map and file descriptor — is false. -/
theorem createMultipartFormData_counterexample :
    parseMultipart
        (createMultipartFormData [("a", "\r\n------WebKitFormBoundaryz")]
          ⟨[66], "f.png", "image/png"⟩ "z").2
        (createMultipartFormData [("a", "\r\n------WebKitFormBoundaryz")]
          ⟨[66], "f.png", "image/png"⟩ "z").1
      ≠ some [MPart.field (utf8 "a") (utf8 "\r\n------WebKitFormBoundaryz"),
          MPart.filePart (utf8 "document") (utf8 "f.png") (utf8 "image/png") [66]] := by
  decide

/-- Witness for the amended C3 at a concrete well-formed input. -/
theorem createMultipartFormData_roundtrip_witness :
    parseMultipart
        (createMultipartFormData [("model", "ocr")] ⟨[1, 2, 3], "a.png", "image/png"⟩ "z").2
        (createMultipartFormData [("model", "ocr")] ⟨[1, 2, 3], "a.png", "image/png"⟩ "z").1
      = some ([("model", "ocr")].map (fun nv => MPart.field (utf8 nv.1) (utf8 nv.2)) ++
          [MPart.filePart (utf8 "document") (utf8 "a.png") (utf8 "image/png") [1, 2, 3]]) :=
  createMultipartFormData_roundtrip [("model", "ocr")] ⟨[1, 2, 3], "a.png", "image/png"⟩ "z"
    (by decide) (by decide) (by decide) (by decide) (by decide) (by decide) (by decide)

/-! ## Adapter execution model

Each node class is modeled by a per-item processing function (the body of the
try block in its execute loop) plus the shared batch loop runBatchAux (the
for loop with its catch handler).  Host-provided inputs appear as explicit
parameters: the input items, the per-item node parameters, the authenticated
HTTP helper (an oracle from requests to JSON responses or failures), the
random multipart boundary suffix per item, the wall-clock timestamp string
per item, and the continue-on-fail flag. -/

/-- One named binary attachment of an item: its bytes and metadata. -/
structure BinaryData where
  bytes : List Nat
  fileName : Option String
  mimeType : Option String
  fileSize : Option Int
deriving DecidableEq, Repr

/-- One input execution item: its JSON payload and its optional binary
property map (absent altogether, or present with zero or more entries). -/
structure Item where
  json : Json
  binary : Option (List (String × BinaryData))
deriving DecidableEq, Repr

/-- Body of an HTTP request issued through the host helper. -/
inductive ReqBody where
  | empty : ReqBody
  | jsonBody : Json → ReqBody
  | raw : List Nat → ReqBody
deriving DecidableEq, Repr

/-- An HTTP request descriptor as passed to
helpers.httpRequestWithAuthentication. -/
structure HttpRequest where
  method : String
  url : String
  headers : List (String × String)
  body : ReqBody
  jsonFlag : Bool
deriving DecidableEq, Repr

/-- A thrown error: its message and, when it came from the HTTP layer, an
optional status code and error code. -/
structure ErrInfo where
  message : String
  statusCode : Option Int
  code : Option String
deriving DecidableEq, Repr

/-- One emitted output item: json payload, pairedItem back-reference and
optional binary passthrough. -/
structure OutItem where
  json : Json
  pairedItem : Nat
  binary : Option (List (String × BinaryData))
deriving DecidableEq, Repr

/-- JS truthiness of a JSON value. -/
def truthy : Json → Bool
  | .null => false
  | .bool b => b
  | .num q => q ≠ 0
  | .str s => s ≠ ""
  | .arr _ => true
  | .obj _ => true

/-- JS truthiness where none models undefined. -/
def truthyOpt : Option Json → Bool
  | none => false
  | some j => truthy j

/-- Model of x || y on a possibly-undefined JS value. -/
def jsOr (x : Option Json) (y : Json) : Json :=
  match x with
  | some j => if truthy j then j else y
  | none => y

/-- Model of x ?? y on a possibly-undefined JS value (null and undefined
both fall through to the default). -/
def coalesce (x : Option Json) (y : Json) : Json :=
  match x with
  | some .null => y
  | some j => j
  | none => y

/-- One step of JS property access. -/
inductive JsKey where
  | fieldK : String → JsKey
  | indexK : Nat → JsKey
deriving DecidableEq, Repr

/-- One optional-chaining property access step: short-circuits on undefined
and null; objects look fields up (a numeric index reads the corresponding
string key); arrays support numeric indexing and length; strings support
numeric indexing (code-point model) and length; other primitives have no own
properties. -/
def jsGet (j : Option Json) (k : JsKey) : Option Json :=
  match j, k with
  | none, _ => none
  | some .null, _ => none
  | some (.obj fs), .fieldK key => fs.lookup key
  | some (.obj fs), .indexK n => fs.lookup (toString n)
  | some (.arr xs), .indexK n => xs.get? n
  | some (.arr xs), .fieldK key => if key = "length" then some (.num xs.length) else none
  | some (.str s), .indexK n => (s.data.get? n).map (fun c => .str (String.mk [c]))
  | some (.str s), .fieldK key => if key = "length" then some (.num s.length) else none
  | some (.num _), _ => none
  | some (.bool _), _ => none

/-- Property access on a value known to be present. -/
def jsGetField (j : Json) (k : String) : Option Json := jsGet (some j) (.fieldK k)

/-- A chain of optional property accesses. -/
def jsPath (j : Json) (ks : List JsKey) : Option Json := ks.foldl jsGet (some j)

/-- A JSON object field present only when the value is defined (a property
written from a possibly-undefined JS value). -/
def optField (k : String) (v : Option Json) : List (String × Json) :=
  match v with
  | some j => [(k, j)]
  | none => []

/-- The base64 alphabet. -/
def b64Char (n : Nat) : Char :=
  "ABCDEFGHIJKLMNOPQRSTUVWXYZabcdefghijklmnopqrstuvwxyz0123456789+/".data.getD n 'A'

/-- Standard base64 encoding with padding (Buffer.prototype.toString with
base64 encoding). -/
def base64Encode : List Nat → String
  | [] => ""
  | [a] =>
    String.mk [b64Char (a / 4), b64Char (a % 4 * 16), '=', '=']
  | [a, b] =>
    String.mk [b64Char (a / 4), b64Char (a % 4 * 16 + b / 16), b64Char (b % 16 * 4), '=']
  | a :: b :: c :: rest =>
    String.mk [b64Char (a / 4), b64Char (a % 4 * 16 + b / 16),
      b64Char (b % 16 * 4 + c / 64), b64Char (c % 64)] ++ base64Encode rest

/-- The generic per-item batch loop shared by all adapters: process items in
order; on a per-item failure, either append that adapter's error-shaped
output item and continue (continue-on-fail), or abort the whole batch with
the adapter's rethrown error. -/
def runBatchAux (proc : Nat → Item → Except ErrInfo (List OutItem))
    (mkErr : ErrInfo → Nat → OutItem) (wrap : ErrInfo → Nat → ErrInfo)
    (cof : Bool) : Nat → List Item → Except ErrInfo (List OutItem)
  | _, [] => .ok []
  | i, it :: rest =>
    match proc i it with
    | .ok outs =>
      match runBatchAux proc mkErr wrap cof (i + 1) rest with
      | .ok tl => .ok (outs ++ tl)
      | .error e => .error e
    | .error e =>
      if cof then
        match runBatchAux proc mkErr wrap cof (i + 1) rest with
        | .ok tl => .ok (mkErr e i :: tl)
        | .error e2 => .error e2
      else .error (wrap e i)

/-- The outputs a continue-on-fail run produces: each item contributes its
own processing result, or that adapter's error item, independently of every
other item. -/
def expectedOuts (proc : Nat → Item → Except ErrInfo (List OutItem))
    (mkErr : ErrInfo → Nat → OutItem) : Nat → List Item → List OutItem
  | _, [] => []
  | i, it :: rest =>
    (match proc i it with
      | .ok outs => outs
      | .error e => [mkErr e i]) ++ expectedOuts proc mkErr (i + 1) rest

/-! ### Document OCR adapter (DocumentOCRUpstage) -/

/-- Per-item node parameters of the OCR node. -/
structure OcrParams where
  binaryPropertyName : String
  model : String
  schema : String
  returnMode : String
deriving DecidableEq, Repr

/-- The words-mode flatMap over the pages array: page.words or an empty list
per page, with flatMap splicing array results and keeping non-array truthy
results as single elements; a null page raises a TypeError (message text
models the engine wording). -/
def ocrWordsOf : List Json → Except ErrInfo (List Json)
  | [] => .ok []
  | p :: rest =>
    match p with
    | .null => .error ⟨"Cannot read properties of null (reading 'words')", none, none⟩
    | _ =>
      let w : Option Json :=
        match p with
        | .obj fs => fs.lookup "words"
        | _ => none
      let contrib : List Json :=
        match w with
        | some j =>
          if truthy j then
            match j with
            | .arr l => l
            | _ => [j]
          else []
        | none => []
      match ocrWordsOf rest with
      | .ok ws => .ok (contrib ++ ws)
      | .error e => .error e

/-- The OCR response projection for each return mode. -/
def ocrProjectJson (returnMode : String) (resp : Json) : Except ErrInfo Json :=
  if returnMode = "text" then
    .ok (.obj [("text", coalesce (jsGetField resp "text") (.str ""))])
  else if returnMode = "pages" then
    .ok (.obj [("pages", coalesce (jsGetField resp "pages") (.arr []))])
  else if returnMode = "words" then
    match jsGetField resp "pages" with
    | none => .ok (.obj [("words", .arr [])])
    | some .null => .ok (.obj [("words", .arr [])])
    | some (.arr pages) =>
      match ocrWordsOf pages with
      | .ok ws => .ok (.obj [("words", .arr ws)])
      | .error e => .error e
    | some _ =>
      .error ⟨"ocrResponse?.pages?.flatMap is not a function", none, none⟩
  else if returnMode = "confidence" then
    .ok (.obj [("confidence", coalesce (jsGetField resp "confidence") (.num 0)),
      ("modelVersion", coalesce (jsGetField resp "modelVersion") (.str "")),
      ("numBilledPages", coalesce (jsGetField resp "numBilledPages") (.num 0))])
  else .ok resp

/-- The body of the OCR per-item try block: binary lookup, size check,
multipart build, authenticated call, response-shape check and projection. -/
def ocrProcessItem (p : OcrParams) (item : Item) (i : Nat)
    (http : HttpRequest → Except ErrInfo Json) (rnd : String) :
    Except ErrInfo (List OutItem) :=
  match item.binary.bind (List.lookup p.binaryPropertyName) with
  | none =>
    .error ⟨"No binary data found in property \"" ++ p.binaryPropertyName ++ "\".", none, none⟩
  | some bd =>
    if (match bd.fileSize with
        | some n => decide (n > 52428800)
        | none => false) then
      .error ⟨"File size exceeds 50MB limit", none, none⟩
    else
      let fields := [("model", p.model)] ++
        (if p.schema ≠ "" then [("schema", p.schema)] else [])
      let fd := createMultipartFormData fields
        ⟨bd.bytes, bd.fileName.getD "upload", bd.mimeType.getD "application/octet-stream"⟩ rnd
      match http ⟨"POST", "https://api.upstage.ai/v1/document-digitization",
          [("Content-Type", fd.2)], .raw fd.1, false⟩ with
      | .error e => .error e
      | .ok resp =>
        match resp with
        | .obj _ =>
          match ocrProjectJson p.returnMode resp with
          | .ok j => .ok [⟨j, i, none⟩]
          | .error e => .error e
        | .arr _ =>
          match ocrProjectJson p.returnMode resp with
          | .ok j => .ok [⟨j, i, none⟩]
          | .error e => .error e
        | _ => .error ⟨"Invalid response format from Upstage OCR API", none, none⟩

/-- The OCR catch handler output item under continue-on-fail: error message,
optional status code, error code defaulting to unknown_error, timestamp. -/
def ocrErrorItem (now : String) (e : ErrInfo) (i : Nat) : OutItem :=
  ⟨.obj ([("error", .str e.message)] ++
    (match e.statusCode with
      | some n => [("statusCode", .num n)]
      | none => []) ++
    [("error_code", .str (match e.code with
      | some c => if c = "" then "unknown_error" else c
      | none => "unknown_error")),
      ("timestamp", .str now)]), i, none⟩

/-- The OCR rethrow: a new error wrapping the item index and message. -/
def ocrWrap (e : ErrInfo) (i : Nat) : ErrInfo :=
  ⟨"Upstage Document OCR failed for item " ++ toString i ++ ": " ++ e.message,
    none, none⟩

/-- Model of DocumentOCRUpstage.execute. -/
def executeDocumentOCR (items : List Item) (params : Nat → OcrParams)
    (http : HttpRequest → Except ErrInfo Json) (rnd : Nat → String)
    (now : Nat → String) (cof : Bool) : Except ErrInfo (List OutItem) :=
  runBatchAux (fun i it => ocrProcessItem (params i) it i http (rnd i))
    (fun e i => ocrErrorItem (now i) e i) ocrWrap cof 0 items

/-! ### Document Classification adapter (DocumentClassificationUpstage) -/

/-- One classification category from the form input. -/
structure ClassCat where
  label : String
  description : String
deriving DecidableEq, Repr

/-- Per-item node parameters of the classification node. -/
structure ClassifyParams where
  inputType : String
  binaryPropertyName : String
  imageUrl : String
  model : String
  schemaName : String
  schemaInputType : String
  categories : List ClassCat
  rawJsonSchema : String
  returnMode : String
deriving DecidableEq, Repr

/-- The content array for the request: a data URL from the binary property,
or the supplied image URL (which must be nonempty). -/
def classifyContent (p : ClassifyParams) (item : Item) : Except ErrInfo Json :=
  if p.inputType = "binary" then
    match item.binary.bind (List.lookup p.binaryPropertyName) with
    | none =>
      .error ⟨"No binary data found in property \"" ++ p.binaryPropertyName ++ "\".", none, none⟩
    | some bd =>
      .ok (.arr [.obj [("type", .str "image_url"),
        ("image_url", .obj [("url", .str ("data:" ++ bd.mimeType.getD "application/octet-stream" ++
          ";base64," ++ base64Encode bd.bytes))])]])
  else
    if p.imageUrl = "" then
      .error ⟨"Image URL is required when input type is URL.", none, none⟩
    else
      .ok (.arr [.obj [("type", .str "image_url"),
        ("image_url", .obj [("url", .str p.imageUrl)])]])

/-- The oneOf schema list: mapped form categories, or the raw JSON input
which must parse to an array. -/
def classifyOneOf (p : ClassifyParams) : Except ErrInfo (List Json) :=
  if p.schemaInputType = "form" then
    .ok (p.categories.map fun c => .obj [("const", .str c.label),
      ("description", .str c.description)])
  else
    if p.rawJsonSchema = "" then
      .error ⟨"Raw JSON schema is required when input type is JSON.", none, none⟩
    else
      match jsonParseE p.rawJsonSchema with
      | .error m => .error ⟨"Invalid JSON format: " ++ m, none, none⟩
      | .ok (.arr xs) => .ok xs
      | .ok _ => .error ⟨"Invalid JSON format: Raw JSON schema must be an array.", none, none⟩

/-- The body of the classification per-item try block. -/
def classifyProcessItem (p : ClassifyParams) (item : Item) (i : Nat)
    (http : HttpRequest → Except ErrInfo Json) : Except ErrInfo (List OutItem) :=
  match classifyContent p item with
  | .error e => .error e
  | .ok content =>
    match classifyOneOf p with
    | .error e => .error e
    | .ok oneOf =>
      let requestBody : Json := .obj [("model", .str p.model),
        ("messages", .arr [.obj [("role", .str "user"), ("content", content)]]),
        ("response_format", .obj [("type", .str "json_schema"),
          ("json_schema", .obj [("name", .str p.schemaName),
            ("schema", .obj [("type", .str "string"), ("oneOf", .arr oneOf)])])])]
      match http ⟨"POST", "https://api.upstage.ai/v1/document-classification",
          [("Content-Type", "application/json")], .jsonBody requestBody, false⟩ with
      | .error e => .error e
      | .ok resp =>
        if p.returnMode = "classification" then
          .ok [⟨.obj [("classification",
              jsOr (jsPath resp [.fieldK "choices", .indexK 0, .fieldK "message", .fieldK "content"])
                (.str "")),
            ("confidence", .str (
              if jsPath resp [.fieldK "choices", .indexK 0, .fieldK "finish_reason"]
                  = some (.str "stop")
              then "high" else "low"))], i, none⟩]
        else
          .ok [⟨resp, i, none⟩]

/-- The classification catch handler output item under continue-on-fail. -/
def classifyErrorItem (e : ErrInfo) (i : Nat) : OutItem :=
  ⟨.obj [("error", .str (if e.message = "" then "Unknown error" else e.message))], i, none⟩

/-- Model of DocumentClassificationUpstage.execute (errors are rethrown
unchanged when continue-on-fail is off). -/
def executeDocumentClassification (items : List Item) (params : Nat → ClassifyParams)
    (http : HttpRequest → Except ErrInfo Json) (cof : Bool) :
    Except ErrInfo (List OutItem) :=
  runBatchAux (fun i it => classifyProcessItem (params i) it i http)
    classifyErrorItem (fun e _ => e) cof 0 items

/-! ### Information Extraction adapter (InformationExtractionUpstage) -/

/-- JS whitespace as matched by the regex class for s and by String.trim:
ASCII whitespace, no-break and Unicode space separators, line and paragraph
separators, and the BOM. -/
def isJsWs (c : Char) : Bool :=
  c = ' ' || c = '\t' || c = '\n' || c = Char.ofNat 11 || c = Char.ofNat 12 ||
  c = '\r' || c = Char.ofNat 0xA0 || c = Char.ofNat 0x1680 ||
  (0x2000 ≤ c.toNat && c.toNat ≤ 0x200A) || c = Char.ofNat 0x2028 ||
  c = Char.ofNat 0x2029 || c = Char.ofNat 0x202F || c = Char.ofNat 0x205F ||
  c = Char.ofNat 0x3000 || c = Char.ofNat 0xFEFF

/-- Model of String.prototype.trim. -/
def jsTrim (s : String) : String :=
  String.mk (((s.data.dropWhile isJsWs).reverse.dropWhile isJsWs).reverse)

/-- Remove zero-width characters and the BOM (the u200B-u200D uFEFF class). -/
def removeZW (s : String) : String :=
  String.mk (s.data.filter fun c =>
    ¬ (0x200B ≤ c.toNat ∧ c.toNat ≤ 0x200D) ∧ c.toNat ≠ 0xFEFF)

/-- Replace every CRLF pair by LF (the Windows line-break normalization). -/
def replaceCrlf : List Char → List Char
  | [] => []
  | '\r' :: '\n' :: rest => '\n' :: replaceCrlf rest
  | c :: rest => c :: replaceCrlf rest

/-- Replace every remaining CR by LF (the Mac line-break normalization). -/
def crToLf (l : List Char) : List Char :=
  l.map fun c => if c = '\r' then '\n' else c

/-- The first cleaning pass on a full-response-format string: trim, strip
zero-width characters, normalize line breaks. -/
def cleanFullFormat (s : String) : String :=
  String.mk (crToLf (replaceCrlf (removeZW (jsTrim s)).data))

/-- Remove every LF (the compressed-JSON cleaning first step). -/
def removeLf (l : List Char) : List Char := l.filter (· ≠ '\n')

/-- Collapse every run of whitespace to a single space: the flag records
whether the previous character was whitespace (so the run's first character
becomes a space and the rest are dropped). -/
def collapseWsAux : Bool → List Char → List Char
  | _, [] => []
  | prevWs, c :: rest =>
    if isJsWs c then
      if prevWs then collapseWsAux true rest
      else ' ' :: collapseWsAux true rest
    else c :: collapseWsAux false rest

/-- Model of replacing every whitespace run by a single space. -/
def collapseWs (l : List Char) : List Char := collapseWsAux false l

/-- The JSON structural characters of the compressed-cleaning regexes. -/
def isJsonSpecial (c : Char) : Bool :=
  c = '\x7b' || c = '\x7d' || c = '[' || c = ']' || c = '"' || c = ':' || c = ','

/-- Right-to-left scan deleting whitespace whose right neighbour region is a
structural character (the list is already reversed; the flag records whether
the character to the right is structural). -/
def delWsBeforeRev : Bool → List Char → List Char
  | _, [] => []
  | nextSpecial, c :: rest =>
    if isJsWs c then
      if nextSpecial then delWsBeforeRev nextSpecial rest
      else c :: delWsBeforeRev false rest
    else c :: delWsBeforeRev (isJsonSpecial c) rest

/-- Delete every whitespace run that immediately precedes a JSON structural
character. -/
def delWsBefore (l : List Char) : List Char := (delWsBeforeRev false l.reverse).reverse

/-- Delete every whitespace run that immediately follows a JSON structural
character (the flag records whether the previous character was structural). -/
def delWsAfterAux : Bool → List Char → List Char
  | _, [] => []
  | prevSpecial, c :: rest =>
    if isJsWs c then
      if prevSpecial then delWsAfterAux prevSpecial rest
      else c :: delWsAfterAux false rest
    else c :: delWsAfterAux (isJsonSpecial c) rest

/-- Delete every whitespace run that immediately follows a JSON structural
character. -/
def delWsAfter (l : List Char) : List Char := delWsAfterAux false l

/-- The compressed-JSON cleaning pass: drop line feeds, collapse whitespace,
delete whitespace around structural characters, trim. -/
def compressClean (s : String) : String :=
  jsTrim (String.mk (delWsAfter (delWsBefore (collapseWs (removeLf s.data)))))

/-- Decimal rendering of a rational, modeling JS number-to-string conversion
(exact for integers and short terminating decimals; longer expansions are
truncated at twenty digits, which no modeled behavior depends on). -/
def jsNumToString (q : Rat) : String :=
  let sign := if q < 0 then "-" else ""
  let n := q.num.natAbs
  let d := q.den
  let ip := n / d
  let rec fracDigits : Nat → Nat → List Char
    | 0, _ => []
    | _, 0 => []
    | fuel + 1, r =>
      let r10 := r * 10
      let digit := r10 / d
      Char.ofNat (48 + digit) :: fracDigits fuel (r10 % d)
  let frac := fracDigits 20 (n % d)
  if frac = [] then sign ++ toString ip
  else sign ++ toString ip ++ "." ++ String.mk frac

mutual

/-- Model of implicit JS string coercion as applied by JSON.parse to a
non-string argument (String(x)): strings unchanged, numbers in decimal,
booleans as words, arrays joined with commas (null elements empty), objects
as the object placeholder. -/
def jsToStr : Json → String
  | .str s => s
  | .num q => jsNumToString q
  | .bool b => cond b "true" "false"
  | .null => "null"
  | .obj _ => "[object Object]"
  | .arr xs => jsToStrList xs

/-- Array-element coercion with comma separators; null elements render
empty. -/
def jsToStrList : List Json → String
  | [] => ""
  | [.null] => ""
  | [x] => jsToStr x
  | .null :: rest => "," ++ jsToStrList rest
  | x :: rest => jsToStr x ++ "," ++ jsToStrList rest

end

/-- JSON.parse applied to a possibly non-string JS value. -/
def jsParseCoerced (content : Json) : Except String Json := jsonParseE (jsToStr content)

/-- A typed-or-raw node parameter of json type: a string, an object, or a
value of another type. -/
inductive ParamVal where
  | pstr : String → ParamVal
  | pjson : Json → ParamVal
  | pother : ParamVal
deriving DecidableEq, Repr

/-- Per-item node parameters of the information-extraction node. -/
structure ExtractParams where
  operation : String
  inputType : String
  binaryPropertyName : String
  imageUrl : String
  model : String
  returnMode : String
  schemaInputType : String
  schemaName : String
  jsonSchemaParam : ParamVal
  fullResponseFormat : ParamVal
  pagesPerChunk : Int
  prompt : String
deriving DecidableEq, Repr

/-- Schema-only mode: clean and parse the schema parameter, then wrap it in
the response_format envelope. -/
def extractSchemaFormat (p : ExtractParams) : Except ErrInfo Json :=
  match p.jsonSchemaParam with
  | .pstr s =>
    match jsonParseE (removeZW (jsTrim s)) with
    | .ok schemaObj =>
      .ok (.obj [("type", .str "json_schema"),
        ("json_schema", .obj [("name", .str p.schemaName), ("schema", schemaObj)])])
    | .error m => .error ⟨"Invalid JSON schema provided: " ++ m, none, none⟩
  | .pjson schemaObj =>
    .ok (.obj [("type", .str "json_schema"),
      ("json_schema", .obj [("name", .str p.schemaName), ("schema", schemaObj)])])
  | .pother =>
    .error ⟨"Invalid JSON schema provided: Invalid schema data type", none, none⟩

/-- Structure validation of a parsed full response format: it must be an
object (array included, as in typeof) with truthy type and json_schema
fields; failures carry the outer catch prefix. -/
def checkFullFormat (parsed : Json) : Except ErrInfo Json :=
  match parsed with
  | .obj _ =>
    if truthyOpt (jsGetField parsed "type") && truthyOpt (jsGetField parsed "json_schema") then
      .ok parsed
    else
      .error ⟨"Invalid full response format JSON provided: Missing required fields: type or json_schema", none, none⟩
  | .arr _ =>
    if truthyOpt (jsGetField parsed "type") && truthyOpt (jsGetField parsed "json_schema") then
      .ok parsed
    else
      .error ⟨"Invalid full response format JSON provided: Missing required fields: type or json_schema", none, none⟩
  | _ =>
    .error ⟨"Invalid full response format JSON provided: Parsed result is not a valid JSON object", none, none⟩

/-- Full-response-format mode: clean and parse, retrying once with the
compressed cleaning and the JSON repair routine; the object path skips both
the cleaning and the structure validation. -/
def extractFullFormat (p : ExtractParams) : Except ErrInfo Json :=
  match p.fullResponseFormat with
  | .pstr s =>
    let cleaned1 := cleanFullFormat s
    match jsonParseE cleaned1 with
    | .ok parsed => checkFullFormat parsed
    | .error _ =>
      let cleaned2 := validateAndFixJsonStructure (compressClean cleaned1)
      match jsonParseE cleaned2 with
      | .ok parsed => checkFullFormat parsed
      | .error m =>
        .error ⟨"Invalid full response format JSON provided: " ++ m, none, none⟩
  | .pjson j => .ok j
  | .pother =>
    .error ⟨"Invalid full response format JSON provided: Invalid response format data type", none, none⟩

/-- The document source: a data URL from the binary property, or the image
URL parameter (which must be nonempty). -/
def extractImageSource (p : ExtractParams) (item : Item) : Except ErrInfo String :=
  if p.inputType = "binary" then
    match item.binary.bind (List.lookup p.binaryPropertyName) with
    | none =>
      .error ⟨"No binary data found in property \"" ++ p.binaryPropertyName ++ "\".", none, none⟩
    | some bd =>
      .ok ("data:" ++ bd.mimeType.getD "application/octet-stream" ++ ";base64," ++
        base64Encode bd.bytes)
  else
    if p.imageUrl = "" then .error ⟨"Image URL is required.", none, none⟩
    else .ok p.imageUrl

/-- An image_url message content entry. -/
def imageContent (url : String) : Json :=
  .obj [("type", .str "image_url"), ("image_url", .obj [("url", .str url)])]

/-- The body of the information-extraction per-item try block, covering both
the extract and the schema-generation operations. -/
def extractProcessItem (p : ExtractParams) (item : Item) (i : Nat)
    (http : HttpRequest → Except ErrInfo Json) : Except ErrInfo (List OutItem) :=
  if p.operation = "extract" then
    match (if p.schemaInputType = "schema" then extractSchemaFormat p
      else extractFullFormat p) with
    | .error e => .error e
    | .ok responseFormat =>
      match extractImageSource p item with
      | .error e => .error e
      | .ok url =>
        let requestBody : Json := .obj ([("model", .str p.model),
          ("messages", .arr [.obj [("role", .str "user"),
            ("content", .arr [imageContent url])]]),
          ("response_format", responseFormat)] ++
          (if p.pagesPerChunk > 0 then
            [("chunking", .obj [("pages_per_chunk", .num p.pagesPerChunk)])]
          else []))
        match http ⟨"POST", "https://api.upstage.ai/v1/information-extraction",
            [], .jsonBody requestBody, true⟩ with
        | .error e => .error e
        | .ok resp =>
          if p.returnMode = "full" then .ok [⟨resp, i, none⟩]
          else
            let content := coalesce (jsPath resp
              [.fieldK "choices", .indexK 0, .fieldK "message", .fieldK "content"]) (.str "")
            let extracted :=
              if truthy content then
                match jsParseCoerced content with
                | .ok j => j
                | .error _ => .obj [("_raw", content)]
              else .obj []
            .ok [⟨.obj ([("extracted", extracted)] ++
              optField "model" (jsGetField resp "model") ++
              optField "usage" (jsGetField resp "usage") ++
              [("full_response", resp)]), i, none⟩]
  else
    let prompt := jsTrim p.prompt
    match extractImageSource p item with
    | .error e => .error e
    | .ok url =>
      let messages : List Json :=
        (if prompt ≠ "" then [.obj [("role", .str "user"), ("content", .str prompt)]]
          else []) ++
        [.obj [("role", .str "user"), ("content", .arr [imageContent url])]]
      let requestBody : Json := .obj [("model", .str p.model), ("messages", .arr messages)]
      match http ⟨"POST",
          "https://api.upstage.ai/v1/information-extraction/schema-generation",
          [], .jsonBody requestBody, true⟩ with
      | .error e => .error e
      | .ok resp =>
        if p.returnMode = "full" then .ok [⟨resp, i, item.binary⟩]
        else
          let contentStr := coalesce (jsPath resp
            [.fieldK "choices", .indexK 0, .fieldK "message", .fieldK "content"]) (.str "")
          let schemaObj :=
            if truthy contentStr then
              match jsParseCoerced contentStr with
              | .ok j => j
              | .error _ => .obj [("_raw", contentStr)]
            else .obj []
          .ok [⟨.obj ([("schema_type", coalesce (jsGetField schemaObj "type") .null),
            ("json_schema", coalesce (jsGetField schemaObj "json_schema") .null),
            ("raw", schemaObj)] ++
            optField "model" (jsGetField resp "model") ++
            optField "usage" (jsGetField resp "usage")), i, item.binary⟩]

/-- The extraction catch handler output item under continue-on-fail. -/
def extractErrorItem (e : ErrInfo) (i : Nat) : OutItem :=
  ⟨.obj [("error", .str (if e.message = "" then "Unknown error" else e.message))], i, none⟩

/-- Model of InformationExtractionUpstage.execute. -/
def executeInformationExtraction (items : List Item) (params : Nat → ExtractParams)
    (http : HttpRequest → Except ErrInfo Json) (cof : Bool) :
    Except ErrInfo (List OutItem) :=
  runBatchAux (fun i it => extractProcessItem (params i) it i http)
    extractErrorItem (fun e _ => e) cof 0 items

/-! ### Document Parsing adapter (DocumentParsingUpstage) -/

/-- Per-item node parameters of the document-parsing node. -/
structure ParsingParams where
  operation : String
  binaryPropertyName : String
  model : String
  ocrMode : String
  base64Categories : List String
  mergeMultipageTables : Bool
  outputFormats : List String
  coordinates : Bool
  chartRecognition : Bool
  returnMode : String
  requestId : String
deriving DecidableEq, Repr

/-- JSON string escaping as performed by JSON.stringify: quote, backslash,
the short control escapes, and a four-hex-digit escape for the remaining
control characters. -/
def jsEscapeChar (c : Char) : String :=
  if c = '"' then "\\\""
  else if c = '\\' then "\\\\"
  else if c = Char.ofNat 8 then "\\b"
  else if c = '\t' then "\\t"
  else if c = '\n' then "\\n"
  else if c = Char.ofNat 12 then "\\f"
  else if c = '\r' then "\\r"
  else if c.toNat < 0x20 then
    "\\u00" ++ String.mk [b16Char (c.toNat / 16), b16Char (c.toNat % 16)]
  else String.mk [c]
where
  /-- Lowercase hex digit. -/
  b16Char (n : Nat) : Char := "0123456789abcdef".data.getD n '0'

/-- JSON.stringify of an array of strings. -/
def stringifyStrArr (l : List String) : String :=
  "[" ++ String.intercalate ","
    (l.map fun s => "\"" ++ String.join (s.data.map jsEscapeChar) ++ "\"") ++ "]"

/-- Uppercase hex digit. -/
def hexDigitU (n : Nat) : Char := "0123456789ABCDEF".data.getD n '0'

/-- Model of encodeURIComponent: unreserved characters pass through,
everything else is percent-encoded per UTF-8 byte. -/
def encodeURIComponent (s : String) : String :=
  String.mk (s.data.foldr (fun c acc =>
    (if ('A' ≤ c ∧ c ≤ 'Z') ∨ ('a' ≤ c ∧ c ≤ 'z') ∨ ('0' ≤ c ∧ c ≤ '9') ∨
        c = '-' ∨ c = '_' ∨ c = '.' ∨ c = '!' ∨ c = '~' ∨ c = '*' ∨
        c = Char.ofNat 39 ∨ c = '(' ∨ c = ')' then [c]
      else (utf8Char c).flatMap fun b => ['%', hexDigitU (b / 16), hexDigitU (b % 16)]) ++ acc) [])

/-- The sync-mode response projection of the parsing node. -/
def parsingProject (returnMode : String) (resp : Json) : Json :=
  if returnMode = "content_html" then
    .obj [("html", coalesce (jsPath resp [.fieldK "content", .fieldK "html"]) (.str ""))]
  else if returnMode = "content_markdown" then
    .obj [("markdown", coalesce (jsPath resp [.fieldK "content", .fieldK "markdown"]) (.str ""))]
  else if returnMode = "content_text" then
    .obj [("text", coalesce (jsPath resp [.fieldK "content", .fieldK "text"]) (.str ""))]
  else if returnMode = "elements" then
    .obj [("elements", coalesce (jsGetField resp "elements") (.arr []))]
  else resp

/-- The body of the parsing per-item try block.  An operation outside the
four declared values falls through every branch and emits nothing. -/
def parsingProcessItem (p : ParsingParams) (item : Item) (i : Nat)
    (http : HttpRequest → Except ErrInfo Json) (rnd : String) :
    Except ErrInfo (List OutItem) :=
  if p.operation = "sync" ∨ p.operation = "asyncSubmit" then
    match item.binary.bind (List.lookup p.binaryPropertyName) with
    | none =>
      .error ⟨"No binary data found in property \"" ++ p.binaryPropertyName ++ "\".", none, none⟩
    | some bd =>
      let fields := [("model", p.model), ("ocr", p.ocrMode),
        ("output_formats", stringifyStrArr p.outputFormats),
        ("coordinates", cond p.coordinates "true" "false"),
        ("chart_recognition", cond p.chartRecognition "true" "false")] ++
        (if p.base64Categories.length > 0 then
          [("base64_encoding", stringifyStrArr p.base64Categories)] else []) ++
        (if p.mergeMultipageTables then [("merge_multipage_tables", "true")] else [])
      let fd := createMultipartFormData fields
        ⟨bd.bytes, bd.fileName.getD "upload", bd.mimeType.getD "application/octet-stream"⟩ rnd
      let url := if p.operation = "sync" then
          "https://api.upstage.ai/v1/document-digitization"
        else "https://api.upstage.ai/v1/document-digitization/async"
      match http ⟨"POST", url, [("Content-Type", fd.2)], .raw fd.1, false⟩ with
      | .error e => .error e
      | .ok resp =>
        if p.operation = "sync" then
          .ok [⟨parsingProject p.returnMode resp, i, none⟩]
        else
          .ok [⟨.obj (optField "request_id" (jsGetField resp "request_id") ++
            [("submitted", .bool true)]), i, none⟩]
  else if p.operation = "asyncGet" then
    if p.requestId = "" then .error ⟨"Request ID is required.", none, none⟩
    else
      match http ⟨"GET",
          "https://api.upstage.ai/v1/document-digitization/requests/" ++
            encodeURIComponent p.requestId, [], .empty, false⟩ with
      | .error e => .error e
      | .ok resp => .ok [⟨resp, i, none⟩]
  else if p.operation = "asyncList" then
    match http ⟨"GET", "https://api.upstage.ai/v1/document-digitization/requests",
        [], .empty, false⟩ with
    | .error e => .error e
    | .ok resp => .ok [⟨resp, i, none⟩]
  else .ok []

/-- The parsing catch handler output item under continue-on-fail. -/
def parsingErrorItem (now : String) (e : ErrInfo) (i : Nat) : OutItem :=
  ⟨.obj ([("error", .str e.message)] ++
    (match e.statusCode with
      | some n => [("statusCode", .num n)]
      | none => []) ++
    [("timestamp", .str now)]), i, none⟩

/-- Model of DocumentParsingUpstage.execute. -/
def executeDocumentParsing (items : List Item) (params : Nat → ParsingParams)
    (http : HttpRequest → Except ErrInfo Json) (rnd : Nat → String)
    (now : Nat → String) (cof : Bool) : Except ErrInfo (List OutItem) :=
  runBatchAux (fun i it => parsingProcessItem (params i) it i http (rnd i))
    (fun e i => parsingErrorItem (now i) e i) (fun e _ => e) cof 0 items

/-! ## Generic properties of the batch loop -/

/-- The contribution of one item to a continue-on-fail run. -/
def contrib (proc : Nat → Item → Except ErrInfo (List OutItem))
    (mkErr : ErrInfo → Nat → OutItem) (i : Nat) (it : Item) : List OutItem :=
  match proc i it with
  | .ok outs => outs
  | .error e => [mkErr e i]

theorem expectedOuts_cons (proc : Nat → Item → Except ErrInfo (List OutItem))
    (mkErr : ErrInfo → Nat → OutItem) (s : Nat) (it : Item) (rest : List Item) :
    expectedOuts proc mkErr s (it :: rest)
      = contrib proc mkErr s it ++ expectedOuts proc mkErr (s + 1) rest := rfl

/-- With continue-on-fail set, the loop never aborts and each item
contributes its own outputs or its own error item, independently of all the
other items. -/
theorem runBatchAux_cof_true (proc : Nat → Item → Except ErrInfo (List OutItem))
    (mkErr : ErrInfo → Nat → OutItem) (wrap : ErrInfo → Nat → ErrInfo) :
    ∀ (items : List Item) (s : Nat),
      runBatchAux proc mkErr wrap true s items = .ok (expectedOuts proc mkErr s items) := by
  intro items
  induction items with
  | nil => intro s; rfl
  | cons it rest ih =>
    intro s
    show runBatchAux proc mkErr wrap true s (it :: rest) = _
    rw [expectedOuts_cons]
    unfold runBatchAux contrib
    cases hp : proc s it with
    | ok outs => simp [ih (s + 1)]
    | error e => simp [ih (s + 1)]

theorem expectedOuts_append (proc : Nat → Item → Except ErrInfo (List OutItem))
    (mkErr : ErrInfo → Nat → OutItem) :
    ∀ (a b : List Item) (s : Nat),
      expectedOuts proc mkErr s (a ++ b)
        = expectedOuts proc mkErr s a ++ expectedOuts proc mkErr (s + a.length) b := by
  intro a
  induction a with
  | nil => intro b s; simp [expectedOuts]
  | cons it rest ih =>
    intro b s
    rw [List.cons_append, expectedOuts_cons, expectedOuts_cons, ih b (s + 1),
      List.append_assoc]
    have : s + 1 + rest.length = s + (it :: rest).length := by
      simp [List.length_cons]
      omega
    rw [this]

/-- Without continue-on-fail, the first failing item aborts the whole batch
with that item's wrapped error, whatever items follow. -/
theorem runBatchAux_false_abort (proc : Nat → Item → Except ErrInfo (List OutItem))
    (mkErr : ErrInfo → Nat → OutItem) (wrap : ErrInfo → Nat → ErrInfo) :
    ∀ (pre : List Item) (s : Nat) (it : Item) (rest : List Item) (e : ErrInfo),
      proc (s + pre.length) it = .error e →
      (∀ k (h : k < pre.length), ∃ outs, proc (s + k) (pre.get ⟨k, h⟩) = .ok outs) →
      runBatchAux proc mkErr wrap false s (pre ++ it :: rest)
        = .error (wrap e (s + pre.length)) := by
  intro pre
  induction pre with
  | nil =>
    intro s it rest e hfail _
    show runBatchAux proc mkErr wrap false s (it :: rest) = _
    unfold runBatchAux
    rw [show s + ([] : List Item).length = s by simp] at hfail
    rw [hfail]
    simp
  | cons x pre2 ih =>
    intro s it rest e hfail hok
    obtain ⟨outs0, hx⟩ := hok 0 (by simp)
    show runBatchAux proc mkErr wrap false s (x :: (pre2 ++ it :: rest)) = _
    unfold runBatchAux
    rw [show (x :: pre2).get ⟨0, by simp⟩ = x from rfl] at hx
    rw [show s + 0 = s by omega] at hx
    rw [hx]
    have hfail2 : proc (s + 1 + pre2.length) it = .error e := by
      rw [show s + 1 + pre2.length = s + (x :: pre2).length by simp [List.length_cons]; omega]
      exact hfail
    have hok2 : ∀ k (h : k < pre2.length), ∃ outs, proc (s + 1 + k) (pre2.get ⟨k, h⟩) = .ok outs := by
      intro k h
      obtain ⟨outs, ho⟩ := hok (k + 1) (by simp [List.length_cons]; omega)
      refine ⟨outs, ?_⟩
      rw [show s + 1 + k = s + (k + 1) by omega]
      rw [show (x :: pre2).get ⟨k + 1, by simp [List.length_cons]; omega⟩ = pre2.get ⟨k, h⟩ from rfl] at ho
      exact ho
    rw [ih (s + 1) it rest e hfail2 hok2]
    have : s + 1 + pre2.length = s + (x :: pre2).length := by
      simp [List.length_cons]
      omega
    rw [this]

/-- When every item's success emits exactly one output carrying its own
index, and error items carry their index too, a successful run emits exactly
one output per item with the matching pairedItem back-reference. -/
theorem runBatchAux_ok_shape (proc : Nat → Item → Except ErrInfo (List OutItem))
    (mkErr : ErrInfo → Nat → OutItem) (wrap : ErrInfo → Nat → ErrInfo) (cof : Bool)
    (hme : ∀ e i, (mkErr e i).pairedItem = i) :
    ∀ (items : List Item) (s : Nat) (outs : List OutItem),
      (∀ k (h : k < items.length) (outs2 : List OutItem),
        proc (s + k) (items.get ⟨k, h⟩) = .ok outs2 →
        ∃ o, outs2 = [o] ∧ o.pairedItem = s + k) →
      runBatchAux proc mkErr wrap cof s items = .ok outs →
      outs.length = items.length ∧
      ∀ k (h : k < outs.length), (outs.get ⟨k, h⟩).pairedItem = s + k := by
  intro items
  induction items with
  | nil =>
    intro s outs _ hrun
    have : outs = [] := by
      have h0 : runBatchAux proc mkErr wrap cof s [] = .ok [] := rfl
      rw [h0] at hrun
      injection hrun with h1
      exact h1.symm
    subst this
    exact ⟨rfl, fun k h => absurd h (by simp)⟩
  | cons it rest ih =>
    intro s outs hsing hrun
    unfold runBatchAux at hrun
    cases hp : proc s it with
    | ok outs0 =>
      rw [hp] at hrun
      obtain ⟨o, ho, hoi⟩ := hsing 0 (by simp)
        outs0 (by rw [show s + 0 = s by omega]; exact hp)
      cases hr : runBatchAux proc mkErr wrap cof (s + 1) rest with
      | ok tl =>
        rw [hr] at hrun
        injection hrun with h1
        subst ho
        have hrest : ∀ k (h : k < rest.length) (outs2 : List OutItem),
            proc (s + 1 + k) (rest.get ⟨k, h⟩) = .ok outs2 →
            ∃ o2, outs2 = [o2] ∧ o2.pairedItem = s + 1 + k := by
          intro k h outs2 hp2
          obtain ⟨o2, h2, h3⟩ := hsing (k + 1) (by simp [List.length_cons]; omega) outs2
            (by rw [show s + (k + 1) = s + 1 + k by omega]
                exact hp2)
          refine ⟨o2, h2, ?_⟩
          rw [show s + 1 + k = s + (k + 1) by omega]
          exact h3
        obtain ⟨hlen, hpair⟩ := ih (s + 1) tl hrest hr
        subst h1
        constructor
        · simp [hlen]
        · intro k h
          match k with
          | 0 => exact hoi
          | k + 1 =>
            have hk : k < tl.length := by
              simp at h
              omega
            have := hpair k hk
            simp only [List.singleton_append, List.get_cons_succ]
            rw [show s + (k + 1) = s + 1 + k by omega]
            exact this
      | error e2 =>
        rw [hr] at hrun
        exact absurd hrun (by simp)
    | error e =>
      rw [hp] at hrun
      cases cof with
      | false =>
        simp at hrun
      | true =>
        cases hr : runBatchAux proc mkErr wrap true (s + 1) rest with
        | ok tl =>
          rw [hr] at hrun
          injection hrun with h1
          have hrest : ∀ k (h : k < rest.length) (outs2 : List OutItem),
              proc (s + 1 + k) (rest.get ⟨k, h⟩) = .ok outs2 →
              ∃ o2, outs2 = [o2] ∧ o2.pairedItem = s + 1 + k := by
            intro k h outs2 hp2
            obtain ⟨o2, h2, h3⟩ := hsing (k + 1) (by simp [List.length_cons]; omega) outs2
              (by rw [show s + (k + 1) = s + 1 + k by omega]
                  exact hp2)
            refine ⟨o2, h2, ?_⟩
            rw [show s + 1 + k = s + (k + 1) by omega]
            exact h3
          obtain ⟨hlen, hpair⟩ := ih (s + 1) tl hrest hr
          subst h1
          constructor
          · simp [hlen]
          · intro k h
            match k with
            | 0 =>
              show (mkErr e s).pairedItem = s + 0
              rw [hme e s]
              omega
            | k + 1 =>
              have hk : k < tl.length := by
                simp at h
                omega
              have := hpair k hk
              simp only [List.get_cons_succ]
              rw [show s + (k + 1) = s + 1 + k by omega]
              exact this
        | error e2 =>
          rw [hr] at hrun
          exact absurd hrun (by simp)

/-- Each item contributes at most one output when its successes are bounded
by one output. -/
theorem runBatchAux_length_le (proc : Nat → Item → Except ErrInfo (List OutItem))
    (mkErr : ErrInfo → Nat → OutItem) (wrap : ErrInfo → Nat → ErrInfo) (cof : Bool) :
    ∀ (items : List Item) (s : Nat) (outs : List OutItem),
      (∀ k (h : k < items.length) (outs2 : List OutItem),
        proc (s + k) (items.get ⟨k, h⟩) = .ok outs2 → outs2.length ≤ 1) →
      runBatchAux proc mkErr wrap cof s items = .ok outs →
      outs.length ≤ items.length := by
  intro items
  induction items with
  | nil =>
    intro s outs _ hrun
    have h0 : runBatchAux proc mkErr wrap cof s [] = .ok [] := rfl
    rw [h0] at hrun
    injection hrun with h1
    subst h1
    simp
  | cons it rest ih =>
    intro s outs hmax hrun
    unfold runBatchAux at hrun
    have hrest : ∀ k (h : k < rest.length) (outs2 : List OutItem),
        proc (s + 1 + k) (rest.get ⟨k, h⟩) = .ok outs2 → outs2.length ≤ 1 := by
      intro k h outs2 hp2
      exact hmax (k + 1) (by simp [List.length_cons]; omega) outs2
        (by rw [show s + (k + 1) = s + 1 + k by omega]; exact hp2)
    cases hp : proc s it with
    | ok outs0 =>
      rw [hp] at hrun
      cases hr : runBatchAux proc mkErr wrap cof (s + 1) rest with
      | ok tl =>
        rw [hr] at hrun
        injection hrun with h1
        subst h1
        have h0 : outs0.length ≤ 1 := hmax 0 (by simp) outs0
          (by rw [show s + 0 = s by omega]; exact hp)
        have h2 := ih (s + 1) tl hrest hr
        simp only [List.length_append, List.length_cons]
        omega
      | error e2 =>
        rw [hr] at hrun
        exact absurd hrun (by simp)
    | error e =>
      rw [hp] at hrun
      cases cof with
      | false => simp at hrun
      | true =>
        cases hr : runBatchAux proc mkErr wrap true (s + 1) rest with
        | ok tl =>
          rw [hr] at hrun
          injection hrun with h1
          subst h1
          have h2 := ih (s + 1) tl hrest hr
          simp only [List.length_cons]
          omega
        | error e2 =>
          rw [hr] at hrun
          exact absurd hrun (by simp)

/-- A successful run containing an item that contributes no output produces
strictly fewer outputs than inputs. -/
theorem runBatchAux_length_lt (proc : Nat → Item → Except ErrInfo (List OutItem))
    (mkErr : ErrInfo → Nat → OutItem) (wrap : ErrInfo → Nat → ErrInfo) (cof : Bool) :
    ∀ (items : List Item) (s : Nat) (outs : List OutItem) (i : Nat) (hi : i < items.length),
      (∀ k (h : k < items.length) (outs2 : List OutItem),
        proc (s + k) (items.get ⟨k, h⟩) = .ok outs2 → outs2.length ≤ 1) →
      proc (s + i) (items.get ⟨i, hi⟩) = .ok [] →
      runBatchAux proc mkErr wrap cof s items = .ok outs →
      outs.length < items.length := by
  intro items
  induction items with
  | nil =>
    intro s outs i hi
    exact absurd hi (by simp)
  | cons it rest ih =>
    intro s outs i hi hmax hzero hrun
    unfold runBatchAux at hrun
    have hrest : ∀ k (h : k < rest.length) (outs2 : List OutItem),
        proc (s + 1 + k) (rest.get ⟨k, h⟩) = .ok outs2 → outs2.length ≤ 1 := by
      intro k h outs2 hp2
      exact hmax (k + 1) (by simp [List.length_cons]; omega) outs2
        (by rw [show s + (k + 1) = s + 1 + k by omega]; exact hp2)
    match i with
    | 0 =>
      have hz : proc s it = .ok [] := by
        rw [show s = s + 0 by omega]
        exact hzero
      rw [hz] at hrun
      cases hr : runBatchAux proc mkErr wrap cof (s + 1) rest with
      | ok tl =>
        rw [hr] at hrun
        injection hrun with h1
        subst h1
        have h2 := runBatchAux_length_le proc mkErr wrap cof rest (s + 1) tl hrest hr
        simp only [List.nil_append, List.length_cons]
        omega
      | error e2 =>
        rw [hr] at hrun
        exact absurd hrun (by simp)
    | i + 1 =>
      have hi2 : i < rest.length := by
        simp at hi
        omega
      have hzero2 : proc (s + 1 + i) (rest.get ⟨i, hi2⟩) = .ok [] := by
        rw [show s + 1 + i = s + (i + 1) by omega]
        exact hzero
      cases hp : proc s it with
      | ok outs0 =>
        rw [hp] at hrun
        cases hr : runBatchAux proc mkErr wrap cof (s + 1) rest with
        | ok tl =>
          rw [hr] at hrun
          injection hrun with h1
          subst h1
          have h0 : outs0.length ≤ 1 := hmax 0 (by simp) outs0
            (by rw [show s + 0 = s by omega]; exact hp)
          have h2 := ih (s + 1) tl i hi2 hrest hzero2 hr
          simp only [List.length_append, List.length_cons]
          omega
        | error e2 =>
          rw [hr] at hrun
          exact absurd hrun (by simp)
      | error e =>
        rw [hp] at hrun
        cases cof with
        | false => simp at hrun
        | true =>
          cases hr : runBatchAux proc mkErr wrap true (s + 1) rest with
          | ok tl =>
            rw [hr] at hrun
            injection hrun with h1
            subst h1
            have h2 := ih (s + 1) tl i hi2 hrest hzero2 hr
            simp only [List.length_cons]
            omega
          | error e2 =>
            rw [hr] at hrun
            exact absurd hrun (by simp)

/-! ## Per-adapter success shape -/

theorem ocrProcessItem_singleton (p : OcrParams) (item : Item) (i : Nat)
    (http : HttpRequest → Except ErrInfo Json) (rnd : String) (outs : List OutItem)
    (h : ocrProcessItem p item i http rnd = .ok outs) :
    ∃ o, outs = [o] ∧ o.pairedItem = i := by
  unfold ocrProcessItem at h
  simp only [] at h
  repeat' split at h
  all_goals first
    | (injection h with h1; exact ⟨_, h1.symm, rfl⟩)
    | exact absurd h (by simp)

theorem classifyProcessItem_singleton (p : ClassifyParams) (item : Item) (i : Nat)
    (http : HttpRequest → Except ErrInfo Json) (outs : List OutItem)
    (h : classifyProcessItem p item i http = .ok outs) :
    ∃ o, outs = [o] ∧ o.pairedItem = i := by
  unfold classifyProcessItem at h
  simp only [] at h
  repeat' split at h
  all_goals first
    | (injection h with h1; exact ⟨_, h1.symm, rfl⟩)
    | exact absurd h (by simp)

theorem extractProcessItem_singleton (p : ExtractParams) (item : Item) (i : Nat)
    (http : HttpRequest → Except ErrInfo Json) (outs : List OutItem)
    (h : extractProcessItem p item i http = .ok outs) :
    ∃ o, outs = [o] ∧ o.pairedItem = i := by
  unfold extractProcessItem at h
  simp only [] at h
  repeat' split at h
  all_goals first
    | (injection h with h1; exact ⟨_, h1.symm, rfl⟩)
    | exact absurd h (by simp)

theorem parsingProcessItem_le_one (p : ParsingParams) (item : Item) (i : Nat)
    (http : HttpRequest → Except ErrInfo Json) (rnd : String) (outs : List OutItem)
    (h : parsingProcessItem p item i http rnd = .ok outs) :
    outs.length ≤ 1 := by
  unfold parsingProcessItem at h
  simp only [] at h
  repeat' split at h
  all_goals first
    | (injection h with h1; rw [← h1]; simp)
    | exact absurd h (by simp)

theorem parsingProcessItem_singleton (p : ParsingParams) (item : Item) (i : Nat)
    (http : HttpRequest → Except ErrInfo Json) (rnd : String) (outs : List OutItem)
    (hop : p.operation ∈ (["sync", "asyncSubmit", "asyncGet", "asyncList"] : List String))
    (h : parsingProcessItem p item i http rnd = .ok outs) :
    ∃ o, outs = [o] ∧ o.pairedItem = i := by
  unfold parsingProcessItem at h
  simp only [] at h
  repeat' split at h
  all_goals first
    | (injection h with h1; exact ⟨_, h1.symm, rfl⟩)
    | (exfalso; revert hop; simp_all)

/-! ## Claim C1 (amended) and its parsing counterexample;
claim C10 -/

/-- Claim C1 as amended: whenever a batch completes without an unhandled
exception, the OCR, information-extraction and classification adapters emit
exactly one output item per input item, in order, with pairedItem.item equal
to the source index — and so does the parsing adapter provided every item's
operation is one of the four declared values (for any other operation value
the parsing adapter emits nothing for that item, as the counterexample
shows). -/
theorem adapters_one_output_per_item :
    (∀ (items : List Item) (params : Nat → OcrParams) http rnd now cof outs,
      executeDocumentOCR items params http rnd now cof = .ok outs →
      outs.length = items.length ∧
      ∀ k (h : k < outs.length), (outs.get ⟨k, h⟩).pairedItem = k) ∧
    (∀ (items : List Item) (params : Nat → ExtractParams) http cof outs,
      executeInformationExtraction items params http cof = .ok outs →
      outs.length = items.length ∧
      ∀ k (h : k < outs.length), (outs.get ⟨k, h⟩).pairedItem = k) ∧
    (∀ (items : List Item) (params : Nat → ClassifyParams) http cof outs,
      executeDocumentClassification items params http cof = .ok outs →
      outs.length = items.length ∧
      ∀ k (h : k < outs.length), (outs.get ⟨k, h⟩).pairedItem = k) ∧
    (∀ (items : List Item) (params : Nat → ParsingParams) http rnd now cof outs,
      (∀ i, i < items.length →
        (params i).operation ∈ (["sync", "asyncSubmit", "asyncGet", "asyncList"] : List String)) →
      executeDocumentParsing items params http rnd now cof = .ok outs →
      outs.length = items.length ∧
      ∀ k (h : k < outs.length), (outs.get ⟨k, h⟩).pairedItem = k) := by
  refine ⟨?_, ?_, ?_, ?_⟩
  · intro items params http rnd now cof outs hrun
    have := runBatchAux_ok_shape
      (fun i it => ocrProcessItem (params i) it i http (rnd i))
      (fun e i => ocrErrorItem (now i) e i) ocrWrap cof (fun _ _ => rfl)
      items 0 outs
      (fun k h outs2 hp => by
        simp only [Nat.zero_add] at hp ⊢
        exact ocrProcessItem_singleton (params k) _ k http (rnd k) outs2 hp)
      hrun
    refine ⟨this.1, fun k h => ?_⟩
    have := this.2 k h
    omega
  · intro items params http cof outs hrun
    have := runBatchAux_ok_shape
      (fun i it => extractProcessItem (params i) it i http)
      extractErrorItem (fun e _ => e) cof (fun _ _ => rfl)
      items 0 outs
      (fun k h outs2 hp => by
        simp only [Nat.zero_add] at hp ⊢
        exact extractProcessItem_singleton (params k) _ k http outs2 hp)
      hrun
    refine ⟨this.1, fun k h => ?_⟩
    have := this.2 k h
    omega
  · intro items params http cof outs hrun
    have := runBatchAux_ok_shape
      (fun i it => classifyProcessItem (params i) it i http)
      classifyErrorItem (fun e _ => e) cof (fun _ _ => rfl)
      items 0 outs
      (fun k h outs2 hp => by
        simp only [Nat.zero_add] at hp ⊢
        exact classifyProcessItem_singleton (params k) _ k http outs2 hp)
      hrun
    refine ⟨this.1, fun k h => ?_⟩
    have := this.2 k h
    omega
  · intro items params http rnd now cof outs hops hrun
    have := runBatchAux_ok_shape
      (fun i it => parsingProcessItem (params i) it i http (rnd i))
      (fun e i => parsingErrorItem (now i) e i) (fun e _ => e) cof (fun _ _ => rfl)
      items 0 outs
      (fun k h outs2 hp => by
        simp only [Nat.zero_add] at hp ⊢
        exact parsingProcessItem_singleton (params k) _ k http (rnd k) outs2
          (hops k h) hp)
      hrun
    refine ⟨this.1, fun k h => ?_⟩
    have := this.2 k h
    omega

/-- Claim C1 counterexample: a parsing batch whose single item carries an
operation value outside the four declared ones completes without error yet
emits no output item at all, so the output list is shorter than the input
list. -/
theorem parsing_unknown_op_counterexample :
    executeDocumentParsing [⟨Json.null, none⟩]
      (fun _ => ⟨"bogus", "data", "document-parse", "auto", [], false, ["html"],
        true, true, "full", ""⟩)
      (fun _ => .ok .null) (fun _ => "") (fun _ => "") false = .ok [] ∧
    ([] : List OutItem).length ≠ ([⟨Json.null, none⟩] : List Item).length := by
  exact ⟨rfl, by decide⟩

/-- Witness for the amended C1: a one-item OCR batch whose call succeeds
emits one output with pairedItem zero. -/
theorem adapters_one_output_per_item_witness :
    ([⟨Json.obj [("text", Json.str "Hello")], 0, none⟩] : List OutItem).length
      = ([⟨Json.null, some [("data", ⟨[1, 2, 3], some "f.png", some "image/png", some 100⟩)]⟩] : List Item).length ∧
    ∀ k (h : k < ([⟨Json.obj [("text", Json.str "Hello")], 0, none⟩] : List OutItem).length),
      (([⟨Json.obj [("text", Json.str "Hello")], 0, none⟩] : List OutItem).get ⟨k, h⟩).pairedItem = k :=
  adapters_one_output_per_item.1
    [⟨Json.null, some [("data", ⟨[1, 2, 3], some "f.png", some "image/png", some 100⟩)]⟩]
    (fun _ => ⟨"data", "ocr", "", "text"⟩)
    (fun _ => .ok (.obj [("text", .str "Hello")])) (fun _ => "z") (fun _ => "T") false
    [⟨Json.obj [("text", Json.str "Hello")], 0, none⟩] rfl

/-- Claim C10: in the parsing adapter an item whose operation is none of the
four declared values emits no output and raises no error, so a successful
batch containing such an item produces strictly fewer outputs than inputs. -/
theorem parsing_unknown_op_skips_item :
    (∀ (p : ParsingParams) (item : Item) (i : Nat) http rnd,
      p.operation ∉ (["sync", "asyncSubmit", "asyncGet", "asyncList"] : List String) →
      parsingProcessItem p item i http rnd = .ok []) ∧
    (∀ (items : List Item) (params : Nat → ParsingParams) http rnd now cof outs i
      (hi : i < items.length),
      (params i).operation ∉ (["sync", "asyncSubmit", "asyncGet", "asyncList"] : List String) →
      executeDocumentParsing items params http rnd now cof = .ok outs →
      outs.length < items.length) := by
  have hskip : ∀ (p : ParsingParams) (item : Item) (i : Nat) http rnd,
      p.operation ∉ (["sync", "asyncSubmit", "asyncGet", "asyncList"] : List String) →
      parsingProcessItem p item i http rnd = .ok [] := by
    intro p item i http rnd hop
    have h1 : p.operation ≠ "sync" := fun he => hop (by simp [he])
    have h2 : p.operation ≠ "asyncSubmit" := fun he => hop (by simp [he])
    have h3 : p.operation ≠ "asyncGet" := fun he => hop (by simp [he])
    have h4 : p.operation ≠ "asyncList" := fun he => hop (by simp [he])
    unfold parsingProcessItem
    rw [if_neg (by simp [h1, h2]), if_neg h3, if_neg h4]
  refine ⟨hskip, ?_⟩
  intro items params http rnd now cof outs i hi hop hrun
  exact runBatchAux_length_lt
    (fun i it => parsingProcessItem (params i) it i http (rnd i))
    (fun e i => parsingErrorItem (now i) e i) (fun e _ => e) cof
    items 0 outs i hi
    (fun k h outs2 hp => parsingProcessItem_le_one (params (0 + k)) _ _ http _ outs2 hp)
    (by simp only [Nat.zero_add]
        exact hskip (params i) _ i http (rnd i) hop)
    hrun

/-! ## Claim C2: the per-item error boundary -/

/-- Claim C2: in the batch loop every adapter is built on (the execute
methods are runBatchAux instances), when an item's processing raises an
error after a succeeding prefix: with continue-on-fail set the run stays
successful, that item contributes exactly its adapter's error-shaped output
item, and the remaining items are processed normally; with the flag off the
run aborts with that item's (possibly wrapped) error and no further item is
processed, whatever items follow. -/
theorem batch_error_boundary
    (proc : Nat → Item → Except ErrInfo (List OutItem))
    (mkErr : ErrInfo → Nat → OutItem) (wrap : ErrInfo → Nat → ErrInfo)
    (pre : List Item) (it : Item) (e : ErrInfo)
    (hfail : proc pre.length it = .error e)
    (hok : ∀ k (h : k < pre.length), ∃ outs, proc k (pre.get ⟨k, h⟩) = .ok outs) :
    (∀ rest, runBatchAux proc mkErr wrap true 0 (pre ++ it :: rest)
      = .ok (expectedOuts proc mkErr 0 pre ++
          mkErr e pre.length :: expectedOuts proc mkErr (pre.length + 1) rest)) ∧
    (∀ rest, runBatchAux proc mkErr wrap false 0 (pre ++ it :: rest)
      = .error (wrap e pre.length)) := by
  constructor
  · intro rest
    rw [runBatchAux_cof_true, expectedOuts_append, expectedOuts_cons]
    have hc : contrib proc mkErr (0 + pre.length) it = [mkErr e pre.length] := by
      unfold contrib
      rw [Nat.zero_add, hfail]
    rw [hc]
    have : 0 + pre.length + 1 = pre.length + 1 := by omega
    rw [this]
    rfl
  · intro rest
    have h2 := runBatchAux_false_abort proc mkErr wrap pre 0 it rest e
      (by rw [Nat.zero_add]; exact hfail)
      (fun k h => by rw [Nat.zero_add]; exact hok k h)
    rw [Nat.zero_add] at h2
    exact h2

/-- Witness for C2 at a concrete one-good-one-bad batch. -/
theorem batch_error_boundary_witness :
    (∀ rest, runBatchAux
        (fun i _ => if i = 0 then .ok [⟨Json.null, 0, none⟩]
          else .error ⟨"boom", none, none⟩)
        classifyErrorItem (fun e _ => e) true 0
        ((([⟨Json.null, none⟩] : List Item)) ++ (⟨Json.null, none⟩ : Item) :: rest)
      = .ok (expectedOuts
          (fun i _ => if i = 0 then .ok [⟨Json.null, 0, none⟩]
            else .error ⟨"boom", none, none⟩) classifyErrorItem 0 [⟨Json.null, none⟩] ++
          classifyErrorItem ⟨"boom", none, none⟩ ([⟨Json.null, none⟩] : List Item).length ::
          expectedOuts
            (fun i _ => if i = 0 then .ok [⟨Json.null, 0, none⟩]
              else .error ⟨"boom", none, none⟩) classifyErrorItem
            (([⟨Json.null, none⟩] : List Item).length + 1) rest)) ∧
    (∀ rest, runBatchAux
        (fun i _ => if i = 0 then .ok [⟨Json.null, 0, none⟩]
          else .error ⟨"boom", none, none⟩)
        classifyErrorItem (fun e _ => e) false 0
        ((([⟨Json.null, none⟩] : List Item)) ++ (⟨Json.null, none⟩ : Item) :: rest)
      = .error ⟨"boom", none, none⟩) :=
  batch_error_boundary
    (fun i _ => if i = 0 then .ok [⟨Json.null, 0, none⟩] else .error ⟨"boom", none, none⟩)
    classifyErrorItem (fun e _ => e) [⟨Json.null, none⟩] ⟨Json.null, none⟩
    ⟨"boom", none, none⟩ rfl
    (fun k h => ⟨[⟨Json.null, 0, none⟩], by
      have hk : k = 0 := by
        simp at h
        omega
      subst hk
      rfl⟩)

/-! ## Claim C7: empty image URL in URL mode -/

theorem str_append_ne_empty (a b : String) (ha : a ≠ "") : a ++ b ≠ "" := by
  intro hc
  apply ha
  have hd := congrArg String.data hc
  rw [String.data_append] at hd
  rcases List.append_eq_nil.mp hd with ⟨h1, _⟩
  exact String.ext (h1.trans rfl)

theorem classifyProcessItem_url_empty (p : ClassifyParams) (item : Item) (i : Nat)
    (hurl : p.inputType = "url") (hempty : p.imageUrl = "") :
    ∀ http, classifyProcessItem p item i http
      = .error ⟨"Image URL is required when input type is URL.", none, none⟩ := by
  intro http
  simp [classifyProcessItem, classifyContent, hurl, hempty]

theorem checkFullFormat_error_info (parsed : Json) (e : ErrInfo)
    (h : checkFullFormat parsed = .error e) : e.message ≠ "" ∧ e.statusCode = none := by
  unfold checkFullFormat at h
  repeat' split at h
  all_goals first
    | (injection h with h1; subst h1; exact ⟨by decide, rfl⟩)
    | simp_all

theorem extractSchemaFormat_error_info (p : ExtractParams) (e : ErrInfo)
    (h : extractSchemaFormat p = .error e) : e.message ≠ "" ∧ e.statusCode = none := by
  unfold extractSchemaFormat at h
  repeat' split at h
  all_goals first
    | (injection h with h1; subst h1;
        exact ⟨str_append_ne_empty "Invalid JSON schema provided: " _ (by decide), rfl⟩)
    | (injection h with h1; subst h1; exact ⟨by decide, rfl⟩)
    | simp_all

theorem extractFullFormat_error_info (p : ExtractParams) (e : ErrInfo)
    (h : extractFullFormat p = .error e) : e.message ≠ "" ∧ e.statusCode = none := by
  unfold extractFullFormat at h
  split at h
  · rename_i s hps
    simp only [] at h
    cases hp1 : jsonParseE (cleanFullFormat s) with
    | ok parsed =>
      rw [hp1] at h
      exact checkFullFormat_error_info parsed e h
    | error m1 =>
      rw [hp1] at h
      cases hp2 : jsonParseE (validateAndFixJsonStructure (compressClean (cleanFullFormat s))) with
      | ok parsed =>
        rw [hp2] at h
        exact checkFullFormat_error_info parsed e h
      | error m2 =>
        rw [hp2] at h
        injection h with h1
        subst h1
        exact ⟨str_append_ne_empty "Invalid full response format JSON provided: " _ (by decide), rfl⟩
  · injection h
  · injection h with h1
    subst h1
    exact ⟨by decide, rfl⟩

theorem extractProcessItem_url_empty (p : ExtractParams) (item : Item) (i : Nat)
    (hurl : p.inputType = "url") (hempty : p.imageUrl = "") :
    ∃ e : ErrInfo, e.message ≠ "" ∧ e.statusCode = none ∧
      ∀ http, extractProcessItem p item i http = .error e := by
  have hsrc : extractImageSource p item
      = .error ⟨"Image URL is required.", none, none⟩ := by
    simp [extractImageSource, hurl, hempty]
  by_cases hop : p.operation = "extract"
  · cases hsf : (if p.schemaInputType = "schema" then extractSchemaFormat p
      else extractFullFormat p) with
    | error e =>
      have hinfo : e.message ≠ "" ∧ e.statusCode = none := by
        by_cases hst : p.schemaInputType = "schema"
        · rw [if_pos hst] at hsf
          exact extractSchemaFormat_error_info p e hsf
        · rw [if_neg hst] at hsf
          exact extractFullFormat_error_info p e hsf
      refine ⟨e, hinfo.1, hinfo.2, fun http => ?_⟩
      unfold extractProcessItem
      rw [if_pos hop, hsf]
    | ok rf =>
      refine ⟨⟨"Image URL is required.", none, none⟩, by decide, rfl, fun http => ?_⟩
      unfold extractProcessItem
      rw [if_pos hop, hsf, hsrc]
  · refine ⟨⟨"Image URL is required.", none, none⟩, by decide, rfl, fun http => ?_⟩
    unfold extractProcessItem
    rw [if_neg hop, hsrc]

/-- A failing item contributes exactly its error-shaped output. -/
theorem contrib_of_error (proc : Nat → Item → Except ErrInfo (List OutItem))
    (mkErr : ErrInfo → Nat → OutItem) (i : Nat) (it : Item) (e : ErrInfo)
    (hp : proc i it = .error e) : contrib proc mkErr i it = [mkErr e i] := by
  unfold contrib
  rw [hp]

/-- Every contribution is a single output when successes are singletons. -/
theorem contrib_length_one (proc : Nat → Item → Except ErrInfo (List OutItem))
    (mkErr : ErrInfo → Nat → OutItem) (i : Nat) (it : Item)
    (hsing : ∀ outs2, proc i it = .ok outs2 → ∃ o, outs2 = [o]) :
    (contrib proc mkErr i it).length = 1 := by
  unfold contrib
  cases hp : proc i it with
  | ok outs =>
    obtain ⟨o, ho⟩ := hsing outs hp
    subst ho
    rfl
  | error e => rfl

/-- Positional characterization of a continue-on-fail run: output k is the
head of item k's own contribution. -/
theorem expectedOuts_get? (proc : Nat → Item → Except ErrInfo (List OutItem))
    (mkErr : ErrInfo → Nat → OutItem) :
    ∀ (items : List Item) (s k : Nat) (hk : k < items.length),
      (∀ j (hj : j < items.length),
        (contrib proc mkErr (s + j) (items.get ⟨j, hj⟩)).length = 1) →
      (expectedOuts proc mkErr s items).get? k
        = (contrib proc mkErr (s + k) (items.get ⟨k, hk⟩)).get? 0 := by
  intro items
  induction items with
  | nil =>
    intro s k hk
    exact absurd hk (by simp)
  | cons it rest ih =>
    intro s k hk hall
    rw [expectedOuts_cons]
    have h0 : (contrib proc mkErr (s + 0) ((it :: rest).get ⟨0, by simp⟩)).length = 1 :=
      hall 0 (by simp)
    rw [show s + 0 = s by omega] at h0
    have h0' : (contrib proc mkErr s it).length = 1 := h0
    match k with
    | 0 =>
      rw [List.get?_append (by omega)]
      rw [show s + 0 = s by omega]
      rfl
    | k + 1 =>
      have hk2 : k < rest.length := by
        simp at hk
        omega
      have hall2 : ∀ j (hj : j < rest.length),
          (contrib proc mkErr (s + 1 + j) (rest.get ⟨j, hj⟩)).length = 1 := by
        intro j hj
        have := hall (j + 1) (by simp [List.length_cons]; omega)
        rw [show s + (j + 1) = s + 1 + j by omega] at this
        exact this
      have := ih (s + 1) k hk2 hall2
      rw [List.get?_append_right (by omega), h0']
      rw [show k + 1 - 1 = k by omega, this]
      rw [show s + 1 + k = s + (k + 1) by omega]
      rfl

/-- Claim C7: for an item in URL input mode with an empty image URL, both the
classification and the information-extraction adapters fail that item with a
descriptive error independent of the HTTP oracle (so before any request is
issued), and under continue-on-fail the batch stays successful, that item's
output is exactly the error-shaped object, and every item's output remains
its own contribution. -/
theorem url_required_validation :
    (∀ (p : ClassifyParams) (item : Item) (i : Nat),
      p.inputType = "url" → p.imageUrl = "" →
      ∀ http, classifyProcessItem p item i http
        = .error ⟨"Image URL is required when input type is URL.", none, none⟩) ∧
    (∀ (p : ExtractParams) (item : Item) (i : Nat),
      p.inputType = "url" → p.imageUrl = "" →
      ∃ e : ErrInfo, e.message ≠ "" ∧ e.statusCode = none ∧
        ∀ http, extractProcessItem p item i http = .error e) ∧
    (∀ (items : List Item) (params : Nat → ClassifyParams) http i (hi : i < items.length),
      (params i).inputType = "url" → (params i).imageUrl = "" →
      executeDocumentClassification items params http true
        = .ok (expectedOuts (fun j it => classifyProcessItem (params j) it j http)
            classifyErrorItem 0 items) ∧
      (expectedOuts (fun j it => classifyProcessItem (params j) it j http)
          classifyErrorItem 0 items).get? i
        = some ⟨.obj [("error", .str "Image URL is required when input type is URL.")], i, none⟩ ∧
      ∀ j (hj : j < items.length),
        (expectedOuts (fun j it => classifyProcessItem (params j) it j http)
            classifyErrorItem 0 items).get? j
          = (contrib (fun j it => classifyProcessItem (params j) it j http)
              classifyErrorItem j (items.get ⟨j, hj⟩)).get? 0) ∧
    (∀ (items : List Item) (params : Nat → ExtractParams) http i (hi : i < items.length),
      (params i).inputType = "url" → (params i).imageUrl = "" →
      executeInformationExtraction items params http true
        = .ok (expectedOuts (fun j it => extractProcessItem (params j) it j http)
            extractErrorItem 0 items) ∧
      (∃ msg : String, msg ≠ "" ∧
        (expectedOuts (fun j it => extractProcessItem (params j) it j http)
            extractErrorItem 0 items).get? i
          = some ⟨.obj [("error", .str msg)], i, none⟩) ∧
      ∀ j (hj : j < items.length),
        (expectedOuts (fun j it => extractProcessItem (params j) it j http)
            extractErrorItem 0 items).get? j
          = (contrib (fun j it => extractProcessItem (params j) it j http)
              extractErrorItem j (items.get ⟨j, hj⟩)).get? 0) := by
  refine ⟨classifyProcessItem_url_empty, extractProcessItem_url_empty, ?_, ?_⟩
  · intro items params http i hi hurl hempty
    have hallc : ∀ j (hj : j < items.length),
        (contrib (fun j it => classifyProcessItem (params j) it j http)
          classifyErrorItem (0 + j) (items.get ⟨j, hj⟩)).length = 1 := by
      intro j hj
      rw [Nat.zero_add]
      exact contrib_length_one _ _ _ _ (fun outs2 hp =>
        (classifyProcessItem_singleton (params j) _ j http outs2 hp).imp
          (fun o ho => ho.1))
    refine ⟨by
        show runBatchAux _ _ _ true 0 items = _
        exact runBatchAux_cof_true _ _ _ items 0, ?_, ?_⟩
    · have hget := expectedOuts_get? _ classifyErrorItem items 0 i hi hallc
      rw [Nat.zero_add] at hget
      rw [hget]
      have hc := contrib_of_error (fun j it => classifyProcessItem (params j) it j http)
        classifyErrorItem i (items.get ⟨i, hi⟩) _
        (classifyProcessItem_url_empty (params i) (items.get ⟨i, hi⟩) i hurl hempty http)
      rw [hc]
      rfl
    · intro j hj
      have hget := expectedOuts_get? _ classifyErrorItem items 0 j hj hallc
      rw [Nat.zero_add] at hget
      exact hget
  · intro items params http i hi hurl hempty
    have halle : ∀ j (hj : j < items.length),
        (contrib (fun j it => extractProcessItem (params j) it j http)
          extractErrorItem (0 + j) (items.get ⟨j, hj⟩)).length = 1 := by
      intro j hj
      rw [Nat.zero_add]
      exact contrib_length_one _ _ _ _ (fun outs2 hp =>
        (extractProcessItem_singleton (params j) _ j http outs2 hp).imp
          (fun o ho => ho.1))
    obtain ⟨e, hmsg, hsc, herr⟩ :=
      extractProcessItem_url_empty (params i) (items.get ⟨i, hi⟩) i hurl hempty
    refine ⟨by
        show runBatchAux _ _ _ true 0 items = _
        exact runBatchAux_cof_true _ _ _ items 0, ⟨e.message, hmsg, ?_⟩, ?_⟩
    · have hget := expectedOuts_get? _ extractErrorItem items 0 i hi halle
      rw [Nat.zero_add] at hget
      rw [hget]
      have hc := contrib_of_error (fun j it => extractProcessItem (params j) it j http)
        extractErrorItem i (items.get ⟨i, hi⟩) e (herr http)
      rw [hc]
      show some (extractErrorItem e i) = _
      unfold extractErrorItem
      rw [if_neg hmsg]
    · intro j hj
      have hget := expectedOuts_get? _ extractErrorItem items 0 j hj halle
      rw [Nat.zero_add] at hget
      exact hget

/-- Witness for C7: a concrete classification batch of one item in URL mode
with an empty image URL, exercising the per-item clause and the positional
batch clause of the theorem. -/
theorem url_required_validation_witness :
    classifyProcessItem
        ⟨"url", "data", "", "solar-pro2", "s", "form", [], "", "classification"⟩
        ⟨Json.null, none⟩ 0 (fun _ => Except.ok Json.null)
      = .error ⟨"Image URL is required when input type is URL.", none, none⟩ ∧
    (expectedOuts (fun j it => classifyProcessItem
        ⟨"url", "data", "", "solar-pro2", "s", "form", [], "", "classification"⟩ it j
        (fun _ => Except.ok Json.null))
      classifyErrorItem 0 [⟨Json.null, none⟩]).get? 0
      = some ⟨.obj [("error", .str "Image URL is required when input type is URL.")], 0, none⟩ :=
  ⟨url_required_validation.1
      ⟨"url", "data", "", "solar-pro2", "s", "form", [], "", "classification"⟩
      ⟨Json.null, none⟩ 0 rfl rfl (fun _ => Except.ok Json.null),
    ((url_required_validation.2.2.1 [⟨Json.null, none⟩]
      (fun _ => ⟨"url", "data", "", "solar-pro2", "s", "form", [], "", "classification"⟩)
      (fun _ => Except.ok Json.null) 0 (by decide) rfl rfl).2.1)⟩

/-- Claim C8: in classification return mode, when the per-item pipeline
reaches the response, the output confidence field is "high" exactly when
choices[0].finish_reason is the string "stop", and "low" for any other
value. -/
theorem classification_confidence (p : ClassifyParams) (item : Item) (i : Nat)
    (resp : Json) (http : HttpRequest → Except ErrInfo Json)
    (content : Json) (oneOf : List Json)
    (hret : p.returnMode = "classification")
    (hc : classifyContent p item = .ok content)
    (ho : classifyOneOf p = .ok oneOf)
    (hhttp : ∀ r, http r = .ok resp) :
    (jsPath resp [.fieldK "choices", .indexK 0, .fieldK "finish_reason"]
        = some (.str "stop") →
      classifyProcessItem p item i http = .ok [⟨.obj [("classification",
        jsOr (jsPath resp [.fieldK "choices", .indexK 0, .fieldK "message", .fieldK "content"])
          (.str "")), ("confidence", .str "high")], i, none⟩]) ∧
    (jsPath resp [.fieldK "choices", .indexK 0, .fieldK "finish_reason"]
        ≠ some (.str "stop") →
      classifyProcessItem p item i http = .ok [⟨.obj [("classification",
        jsOr (jsPath resp [.fieldK "choices", .indexK 0, .fieldK "message", .fieldK "content"])
          (.str "")), ("confidence", .str "low")], i, none⟩]) := by
  have key : classifyProcessItem p item i http = .ok [⟨.obj [("classification",
      jsOr (jsPath resp [.fieldK "choices", .indexK 0, .fieldK "message", .fieldK "content"])
        (.str "")),
      ("confidence", .str (
        if jsPath resp [.fieldK "choices", .indexK 0, .fieldK "finish_reason"]
            = some (.str "stop")
        then "high" else "low"))], i, none⟩] := by
    unfold classifyProcessItem
    rw [hc, ho]
    simp only []
    rw [hhttp]
    simp only []
    rw [if_pos hret]
  constructor
  · intro hfr
    rw [key, if_pos hfr]
  · intro hfr
    rw [key, if_neg hfr]

/-- Witness for C8: one concrete response with finish_reason "stop" and one
with finish_reason "length". -/
theorem classification_confidence_witness :
    classifyProcessItem
        ⟨"url", "data", "http://img", "solar-pro2", "s", "form", [], "", "classification"⟩
        ⟨Json.null, none⟩ 0
        (fun _ => Except.ok (Json.obj [("choices", Json.arr [Json.obj
          [("finish_reason", Json.str "stop"),
           ("message", Json.obj [("content", Json.str "invoice")])]])]))
      = .ok [⟨.obj [("classification", Json.str "invoice"),
          ("confidence", Json.str "high")], 0, none⟩] ∧
    classifyProcessItem
        ⟨"url", "data", "http://img", "solar-pro2", "s", "form", [], "", "classification"⟩
        ⟨Json.null, none⟩ 0
        (fun _ => Except.ok (Json.obj [("choices", Json.arr [Json.obj
          [("finish_reason", Json.str "length"),
           ("message", Json.obj [("content", Json.str "invoice")])]])]))
      = .ok [⟨.obj [("classification", Json.str "invoice"),
          ("confidence", Json.str "low")], 0, none⟩] :=
  ⟨(classification_confidence
      ⟨"url", "data", "http://img", "solar-pro2", "s", "form", [], "", "classification"⟩
      ⟨Json.null, none⟩ 0
      (Json.obj [("choices", Json.arr [Json.obj
        [("finish_reason", Json.str "stop"),
         ("message", Json.obj [("content", Json.str "invoice")])]])])
      (fun _ => Except.ok (Json.obj [("choices", Json.arr [Json.obj
        [("finish_reason", Json.str "stop"),
         ("message", Json.obj [("content", Json.str "invoice")])]])]))
      _ _ rfl rfl rfl (fun _ => rfl)).1 (by decide),
   (classification_confidence
      ⟨"url", "data", "http://img", "solar-pro2", "s", "form", [], "", "classification"⟩
      ⟨Json.null, none⟩ 0
      (Json.obj [("choices", Json.arr [Json.obj
        [("finish_reason", Json.str "length"),
         ("message", Json.obj [("content", Json.str "invoice")])]])])
      (fun _ => Except.ok (Json.obj [("choices", Json.arr [Json.obj
        [("finish_reason", Json.str "length"),
         ("message", Json.obj [("content", Json.str "invoice")])]])]))
      _ _ rfl rfl rfl (fun _ => rfl)).2 (by decide)⟩

/-- Claim C9: OCR in text return mode outputs an object whose single field
text carries the response's text field, with the empty string substituted
when the field is absent (or null, per the JS nullish-coalescing operator),
and the field's own value kept whenever it is non-null. -/
theorem ocr_text_mode (p : OcrParams) (item : Item) (i : Nat) (bd : BinaryData)
    (fs : List (String × Json)) (http : HttpRequest → Except ErrInfo Json)
    (rnd : String)
    (hret : p.returnMode = "text")
    (hbd : item.binary.bind (List.lookup p.binaryPropertyName) = some bd)
    (hsize : (match bd.fileSize with
      | some n => decide (n > 52428800)
      | none => false) = false)
    (hhttp : ∀ r, http r = .ok (.obj fs)) :
    ocrProcessItem p item i http rnd
      = .ok [⟨.obj [("text", coalesce (jsGetField (.obj fs) "text") (.str ""))], i, none⟩] ∧
    (jsGetField (Json.obj fs) "text" = none →
      coalesce (jsGetField (.obj fs) "text") (.str "") = .str "") ∧
    (∀ t, jsGetField (Json.obj fs) "text" = some t → t ≠ .null →
      coalesce (jsGetField (.obj fs) "text") (.str "") = t) := by
  refine ⟨?_, ?_, ?_⟩
  · have hproj : ocrProjectJson p.returnMode (.obj fs)
        = .ok (.obj [("text", coalesce (jsGetField (.obj fs) "text") (.str ""))]) := by
      rw [hret]
      rfl
    unfold ocrProcessItem
    rw [hbd]
    simp only []
    rw [hsize]
    simp only [Bool.false_eq_true, if_false]
    rw [hhttp]
    simp only []
    rw [hproj]
  · intro h
    rw [h]
    rfl
  · intro t ht hnn
    rw [ht]
    unfold coalesce
    cases t with
    | null => exact absurd rfl hnn
    | str v => rfl
    | num v => rfl
    | bool v => rfl
    | arr v => rfl
    | obj v => rfl

/-- Witness for C9: an upstream response with text "Hello" yields output
json with text "Hello", and a response without a text field yields the
empty string. -/
theorem ocr_text_mode_witness :
    ocrProcessItem ⟨"data", "ocr", "", "text"⟩
        ⟨Json.null, some [("data", ⟨[1, 2], some "a.png", some "image/png", some 2⟩)]⟩ 0
        (fun _ => Except.ok (Json.obj [("text", Json.str "Hello")])) "z"
      = .ok [⟨.obj [("text", Json.str "Hello")], 0, none⟩] ∧
    ocrProcessItem ⟨"data", "ocr", "", "text"⟩
        ⟨Json.null, some [("data", ⟨[1, 2], some "a.png", some "image/png", some 2⟩)]⟩ 0
        (fun _ => Except.ok (Json.obj [("pages", Json.arr [])])) "z"
      = .ok [⟨.obj [("text", Json.str "")], 0, none⟩] :=
  ⟨(ocr_text_mode ⟨"data", "ocr", "", "text"⟩
      ⟨Json.null, some [("data", ⟨[1, 2], some "a.png", some "image/png", some 2⟩)]⟩ 0
      ⟨[1, 2], some "a.png", some "image/png", some 2⟩
      [("text", Json.str "Hello")]
      (fun _ => Except.ok (Json.obj [("text", Json.str "Hello")])) "z"
      rfl rfl rfl (fun _ => rfl)).1,
   (ocr_text_mode ⟨"data", "ocr", "", "text"⟩
      ⟨Json.null, some [("data", ⟨[1, 2], some "a.png", some "image/png", some 2⟩)]⟩ 0
      ⟨[1, 2], some "a.png", some "image/png", some 2⟩
      [("pages", Json.arr [])]
      (fun _ => Except.ok (Json.obj [("pages", Json.arr [])])) "z"
      rfl rfl rfl (fun _ => rfl)).1⟩

/-- Witness for C10 at a concrete batch: one valid sync item is impossible
here, so use an unknown-operation item preceded by an asyncList item. -/
theorem parsing_unknown_op_skips_item_witness :
    parsingProcessItem
      ⟨"other", "data", "document-parse", "auto", [], false, ["html"], true, true, "full", ""⟩
      ⟨Json.null, none⟩ 0 (fun _ => .ok .null) "z" = .ok [] :=
  parsing_unknown_op_skips_item.1
    ⟨"other", "data", "document-parse", "auto", [], false, ["html"], true, true, "full", ""⟩
    ⟨Json.null, none⟩ 0 (fun _ => .ok .null) "z" (by decide)

end Upstage
